import Mathlib

/-!
Verification development for the rss-tv-monitor media-title resolution core.

The definitions below are a shallow embedding of the TypeScript source:

* `TMDBService` (catalog client, scorer, cache, orchestrator) from the
  service file containing `smartSearch`;
* `RSSService.extractTVShowTitle` (title extractor) from the RSS service file.

Modelling conventions, stated once here:

* JavaScript numbers are modelled as `Rat` (all arithmetic in the scorer is
  exact decimal arithmetic on small values); the single place where the source
  can produce `NaN` (a `0/0` when the query has no word longer than one
  character) is modelled by `Option`: `none` stands for `NaN`, which
  contaminates every later addition and comparison, exactly as in JS.
* Date strings are consumed by the source only through
  `new Date(d).getFullYear()`; the embedding therefore carries
  `Option Int` fields holding the parsed year (`none` = field absent or empty).
* A JS `Map` is modelled as an insertion-ordered association list; `Map.set`
  replaces in place or appends, `Map.delete` removes the entry of a key, and
  the first list element is the oldest key.
* Network effects are modelled by explicit oracles: a `SearchOracle` gives the
  candidate lists each endpoint would return for a query, and `makeRequest`
  takes a per-attempt oracle.  Every function that can reach the network also
  returns how many catalog calls it performed.
-/

namespace RssTv

/- The core rational operations are shipped `[irreducible]`; the concrete
evaluations below need the kernel to unfold them. -/
attribute [local semireducible] Rat.add Rat.mul Rat.inv Rat.sub

/-! ## Character and string helpers mirroring the JS built-ins -/

/-- JS whitespace test used by `trim`, `\s` and `split(/\s+/)`. -/
def isWsC (c : Char) : Bool := c.isWhitespace

/-- Embeds `String.prototype.trim` on a character list. -/
def trimChars (l : List Char) : List Char :=
  ((l.dropWhile isWsC).reverse.dropWhile isWsC).reverse

/-- Embeds `String.prototype.trim`. -/
def jsTrimS (s : String) : String := String.mk (trimChars s.data)

/-- Embeds `String.prototype.toLowerCase` (ASCII, which covers all titles used here). -/
def lowerS (s : String) : String := String.mk (s.data.map Char.toLower)

/-- Split on a single separator character, JS `split(sep)` semantics:
`""` yields `[""]`, consecutive separators yield empty fields. -/
def splitChar (sep : Char) : List Char → List (List Char)
  | [] => [[]]
  | c :: rest =>
    if c = sep then
      [] :: splitChar sep rest
    else
      match splitChar sep rest with
      | [] => [[c]]
      | w :: ws => (c :: w) :: ws

/-- JS `s.split(" ")`. -/
def splitOnSpace (s : String) : List String :=
  (splitChar ' ' s.data).map String.mk

/-- Is `pre` a prefix of `l`?  (Plain, case sensitive.) -/
def prefixOfC : List Char → List Char → Bool
  | [], _ => true
  | _ :: _, [] => false
  | a :: as, b :: bs => a = b && prefixOfC as bs

/-- Substring test: does `hay` contain `sub`?  (JS `String.prototype.includes`.) -/
def containsSub (sub : List Char) : List Char → Bool
  | [] => sub.isEmpty
  | c :: t => prefixOfC sub (c :: t) || containsSub sub t

/-- JS `s.includes(sub)`. -/
def jsIncludes (s : String) (sub : String) : Bool := containsSub sub.data s.data

def dedupJsGo (seen : List String) : List String → List String
  | [] => []
  | x :: xs => if x ∈ seen then dedupJsGo seen xs else x :: dedupJsGo (x :: seen) xs

/-- Embeds `new Set(...)` spread back into an array: keeps first occurrences in order. -/
def dedupJs (l : List String) : List String := dedupJsGo [] l

/-! ## Levenshtein distance (`calculateStringSimilarity`)

The source fills the standard `(len1+1) × (len2+1)` DP matrix; the recursion
below computes the same recurrence (`matrix[i][j]` in the source equals
`lev` of the length-`i` and length-`j` prefixes).  The nested-helper shape
keeps the recursion structural, so the kernel can evaluate it. -/

def levAux (x : Char) (xs : List Char) (levxs : List Char → Nat) :
    List Char → Nat
  | [] => xs.length + 1
  | y :: ys =>
    min (levxs (y :: ys) + 1)
      (min (levAux x xs levxs ys + 1)
        (levxs ys + (if x = y then 0 else 1)))

def lev : List Char → List Char → Nat
  | [], ys => ys.length
  | x :: xs, ys => levAux x xs (lev xs) ys

/-- Embeds `calculateRelevanceScore` helper: normalized similarity in `[0, 1]`. -/
def calculateStringSimilarity (s1 s2 : String) : Rat :=
  let len1 := s1.data.length
  let len2 := s2.data.length
  if len1 = 0 then (if len2 = 0 then 1 else 0)
  else if len2 = 0 then 0
  else
    let maxLen := max len1 len2
    ((maxLen : Rat) - (lev s1.data s2.data : Rat)) / (maxLen : Rat)

/-! ## Catalog data model -/

inductive MediaType where
  | movie
  | tv
deriving DecidableEq, Repr

/-- One catalog candidate.  `release_date` and `first_air_date` carry the year
`new Date(field).getFullYear()` would produce, `none` when the field is absent
or empty.  Fields the embedded functions never read (overview, poster) are
omitted. -/
structure TMDBSearchResult where
  id : Int
  title : Option String
  name : Option String
  release_date : Option Int
  first_air_date : Option Int
  media_type : MediaType
  vote_average : Rat
  popularity : Rat
deriving DecidableEq, Repr

/-- The client configuration (proxy settings are plumbing that never changes
any modelled observable behaviour, so they are omitted). -/
structure TMDBConfig where
  apiKey : String
  enabled : Bool
deriving DecidableEq, Repr

/-! ## Relevance scorer (`calculateRelevanceScore`) -/

/-- JS truthy-or on optional strings: `a || d` where `""` is falsy. -/
def jsOrS (o : Option String) (d : String) : String :=
  match o with
  | some s => if s = "" then d else s
  | none => d

/-- Embeds `result.title || result.name || ""`. -/
def titleOf (r : TMDBSearchResult) : String := jsOrS r.title (jsOrS r.name "")

/-- Embeds `result.release_date || result.first_air_date`. -/
def effectiveDate (r : TMDBSearchResult) : Option Int :=
  match r.release_date with
  | some y => some y
  | none => r.first_air_date

/-- The inner word-matching loop: for one query word, scan title words in
order; the first word that matches decides (exact beats the scan order, a
containment hit breaks the scan without looking further). -/
def tokenMatchKind (qw : String) : List String → Option Bool
  | [] => none
  | tw :: rest =>
    if qw = tw then some true
    else if jsIncludes tw qw || jsIncludes qw tw then some false
    else tokenMatchKind qw rest

/-- Totals `(exactMatches, matchingWords)` over all query words. -/
def countTokenMatches (tws : List String) : List String → Nat × Nat
  | [] => (0, 0)
  | qw :: rest =>
    let p := countTokenMatches tws rest
    match tokenMatchKind qw tws with
    | some true => (p.1 + 1, p.2 + 1)
    | some false => (p.1, p.2 + 1)
    | none => p

/-- Branches 1-4 of the scorer (both strings already lowercased).
`none` models the JS `NaN` produced by `0/0` when the query has no word
longer than one character and no identity or substring branch applies. -/
def relevanceBase (t q : String) : Option Rat :=
  if t = q then some 100
  else if jsIncludes t q then some 80
  else if jsIncludes q t then some 60
  else
    let queryWords := (splitOnSpace q).filter (fun w => 1 < w.length)
    let titleWords := (splitOnSpace t).filter (fun w => 1 < w.length)
    if queryWords.length = 0 then none
    else
      let p := countTokenMatches titleWords queryWords
      let ql : Rat := (queryWords.length : Rat)
      let s : Rat := ((p.1 : Rat) / ql) * 50 + ((p.2 : Rat) / ql) * 30
      some (if ((p.2 : Rat) / ql) > 7 / 10 then s + 20 else s)

/-- Embeds `> 8 → +15, > 7 → +10, > 5 → +5`. -/
def voteBonus (v : Rat) : Rat :=
  if v > 8 then 15 else if v > 7 then 10 else if v > 5 then 5 else 0

/-- Recency bonus relative to the current year. -/
def recencyBonus (year cy : Int) : Rat :=
  if year ≥ cy - 1 then 10 else if year ≥ cy - 3 then 5
  else if year ≥ cy - 5 then 2 else 0

/-- Embeds `min(popularity / 100, 5)` gated on `vote_average > 0 && popularity > 10`. -/
def popBonus (r : TMDBSearchResult) : Rat :=
  if r.vote_average > 0 ∧ r.popularity > 10 then min (r.popularity / 100) 5 else 0

/-- Embeds `Math.round` (half away from zero upward, i.e. `⌊x + 1/2⌋`). -/
def jsRound (x : Rat) : Int := ⌊x + 1 / 2⌋

/-- Embeds `calculateRelevanceScore(result, originalQuery)`; `cy` is
`new Date().getFullYear()`.  `none` models `NaN`. -/
def calculateRelevanceScore (r : TMDBSearchResult) (originalQuery : String)
    (cy : Int) : Option Int :=
  let t := lowerS (titleOf r)
  let q := lowerS originalQuery
  (relevanceBase t q).map (fun b =>
    jsRound (b + calculateStringSimilarity t q * 15 + voteBonus r.vote_average +
      (match effectiveDate r with
       | some y => recencyBonus y cy
       | none => 0) + popBonus r))

/-! ## Regex scrubbing machinery for `preprocessQuery`

The source applies a fixed sequence of `replace(/.../gi, ...)` calls.  Each
word-boundary pattern is an alternation of tokens made of word characters, so
a match is: a `\b` boundary, one alternative matched greedily, and a `\b`
boundary after it (greedy quantifier backtracking can never repair a failed
trailing boundary here because every shortened token still leaves two word
characters adjacent, so each alternative contributes at most the candidate
lengths enumerated below, tried in regex order). -/

/-- JS regex `\w`: `[A-Za-z0-9_]`. -/
def isWordC (c : Char) : Bool := c.isAlphanum || c = '_'

def wordOptC : Option Char → Bool
  | none => false
  | some c => isWordC c

/-- JS `\b` between two adjacent positions (string ends count as non-word). -/
def bdryAt (a b : Option Char) : Bool := wordOptC a != wordOptC b

/-- Number of leading ASCII digits. -/
def leadDigits (l : List Char) : Nat := (l.takeWhile Char.isDigit).length

/-- Case-insensitive prefix test. -/
def ciPrefix (lit : List Char) (s : List Char) : Bool :=
  prefixOfC (lit.map Char.toLower) (s.map Char.toLower |>.take lit.length)

/-- Last character of the first `n` characters. -/
def lastOfTake (s : List Char) (n : Nat) : Option Char := (s.take n).getLast?

/-- First candidate length whose trailing `\b` boundary holds. -/
def pickCand (s : List Char) : List Nat → Option Nat
  | [] => none
  | n :: rest =>
    if 1 ≤ n ∧ n ≤ s.length ∧ bdryAt (lastOfTake s n) ((s.drop n).head?) = true
    then some n
    else pickCand s rest

/-- Try the alternatives in regex order at the current position. -/
def firstAlt (s : List Char) : List (List Char → List Nat) → Option Nat
  | [] => none
  | a :: rest =>
    match pickCand s (a s) with
    | some n => some n
    | none => firstAlt s rest

def matchHere (alts : List (List Char → List Nat)) (prev : Option Char)
    (s : List Char) : Option Nat :=
  if bdryAt prev s.head? = true then firstAlt s alts else none

/-- Global replace with the empty string; `prev` is the character preceding
the current scan position in the original string (regex scanning resumes
right after each removed match). -/
def scrubGo (alts : List (List Char → List Nat)) :
    Nat → Option Char → List Char → List Char
  | 0, _, s => s
  | _ + 1, _, [] => []
  | fuel + 1, prev, c :: rest =>
    match matchHere alts prev (c :: rest) with
    | some n => scrubGo alts fuel (lastOfTake (c :: rest) n) ((c :: rest).drop n)
    | none => c :: scrubGo alts fuel (some c) rest

def scrubWith (alts : List (List Char → List Nat)) (s : List Char) : List Char :=
  scrubGo alts (s.length + 1) none s

/-- Embeds `S\d+E?\d*` (candidates: with the `E` part, then without). -/
def altSE (s : List Char) : List Nat :=
  match s with
  | [] => []
  | c :: r =>
    if c.toLower = 's' then
      let d1 := leadDigits r
      if d1 = 0 then []
      else
        match r.drop d1 with
        | e :: r2 =>
          if e.toLower = 'e' then [1 + d1 + 1 + leadDigits r2, 1 + d1]
          else [1 + d1]
        | [] => [1 + d1]
    else []

/-- Embeds `Season\s+\d+`. -/
def altSeason (s : List Char) : List Nat :=
  if ciPrefix ("Season".data) s then
    let r := s.drop 6
    let w := (r.takeWhile isWsC).length
    if w = 0 then []
    else
      let d := leadDigits (r.drop w)
      if d = 0 then [] else [6 + w + d]
  else []

/-- Embeds `第\d+季`. -/
def altDiJi (s : List Char) : List Nat :=
  match s with
  | c :: r =>
    if c = '第' then
      let d := leadDigits r
      if d = 0 then []
      else
        match r.drop d with
        | e :: _ => if e = '季' then [1 + d + 1] else []
        | [] => []
    else []
  | [] => []

/-- Embeds `全\d+集`. -/
def altQuanJi (s : List Char) : List Nat :=
  match s with
  | c :: r =>
    if c = '全' then
      let d := leadDigits r
      if d = 0 then []
      else
        match r.drop d with
        | e :: _ => if e = '集' then [1 + d + 1] else []
        | [] => []
    else []
  | [] => []

/-- Embeds `\d{4}` (exactly four digits; a fifth digit is rejected by the trailing
boundary check). -/
def altDigits4 (s : List Char) : List Nat :=
  if (s.take 4).length = 4 ∧ (s.take 4).all Char.isDigit then [4] else []

/-- Does the list start with the letter `p` (case-insensitively)? -/
def headIsP : List Char → Bool
  | p :: _ => p.toLower = 'p'
  | [] => false

/-- Embeds `\d{3,4}p` (greedy: four digits first, then three). -/
def alt34p (s : List Char) : List Nat :=
  let cand4 :=
    if (s.take 4).all Char.isDigit && ((s.take 4).length = 4 : Bool) &&
        headIsP (s.drop 4)
    then [5] else []
  let cand3 :=
    if (s.take 3).all Char.isDigit && ((s.take 3).length = 3 : Bool) &&
        headIsP (s.drop 3)
    then [4] else []
  cand4 ++ cand3

/-- A single case-insensitive literal alternative. -/
def litCI (lit : String) (s : List Char) : List Nat :=
  if ciPrefix lit.data s then [lit.data.length] else []

/-- Embeds `H\.?26x` (candidates: with the dot, then without). -/
def altHdot (digits : String) (s : List Char) : List Nat :=
  match s with
  | [] => []
  | c :: r =>
    if c.toLower = 'h' then
      (match r with
       | d :: r2 =>
         if d = '.' ∧ prefixOfC digits.data r2 then [2 + digits.data.length] else []
       | [] => []) ++
      (if prefixOfC digits.data r then [1 + digits.data.length] else [])
    else []

def scrubEpisode : List Char → List Char :=
  scrubWith [altSE, altSeason, altDiJi, altQuanJi]

def scrubResolution : List Char → List Char :=
  scrubWith [altDigits4, alt34p, litCI "HD", litCI "4K", litCI "BluRay",
    litCI "WEB", litCI "HDTV", litCI "DVDRip"]

def scrubCodec : List Char → List Char :=
  scrubWith [altHdot "264", altHdot "265", litCI "x264", litCI "x265",
    litCI "HEVC", litCI "AVC"]

def scrubRip : List Char → List Char :=
  scrubWith [litCI "REMUX", litCI "BDRip", litCI "WEBRip", litCI "HDRip",
    litCI "CAMRip"]

def scrubCn : List Char → List Char :=
  scrubWith [litCI "更新", litCI "完结", litCI "连载", litCI "全集"]

/-- Rest of the list after the first `close` character, not crossing a
newline (the lazy `.*?` of `/\[.*?\]/` cannot match `\n`). -/
def findCloseNoNl (close : Char) : List Char → Option (List Char)
  | [] => none
  | ch :: rest =>
    if ch = '\n' then none
    else if ch = close then some rest
    else findCloseNoNl close rest

def stripDelimGo (o c : Char) : Nat → List Char → List Char
  | 0, s => s
  | _ + 1, [] => []
  | fuel + 1, ch :: rest =>
    if ch = o then
      match findCloseNoNl c rest with
      | some after => stripDelimGo o c fuel after
      | none => ch :: stripDelimGo o c fuel rest
    else ch :: stripDelimGo o c fuel rest

/-- Embeds `replace(/\[.*?\]/g, "")` and the parenthesis analogue. -/
def stripDelim (o c : Char) (s : List Char) : List Char :=
  stripDelimGo o c (s.length + 1) s

def collapseGo (p : Char → Bool) (r : Char) : Nat → List Char → List Char
  | 0, s => s
  | _ + 1, [] => []
  | fuel + 1, ch :: rest =>
    if p ch then r :: collapseGo p r fuel (rest.dropWhile p)
    else ch :: collapseGo p r fuel rest

/-- Replace each maximal run of `p`-characters by one `r`. -/
def collapseRuns (p : Char → Bool) (r : Char) (s : List Char) : List Char :=
  collapseGo p r (s.length + 1) s

/-- Embeds `split(sep)[0]`: the text before the first occurrence of `sep`. -/
def beforeFirst (sep : List Char) : List Char → List Char
  | [] => []
  | c :: rest =>
    if prefixOfC sep (c :: rest) then [] else c :: beforeFirst sep rest

def subtitleSeparators : List String := [" - ", " – ", " — ", " | ", " / ", ":"]

/-- The main-title loop of `preprocessQuery`: first separator present in the
clean query whose trimmed head part passes the checks. -/
def findMainTitle (cleanQuery : String) : List String → Option String
  | [] => none
  | sep :: rest =>
    if jsIncludes cleanQuery sep then
      let mainTitle := jsTrimS (String.mk (beforeFirst sep.data cleanQuery.data))
      if mainTitle ≠ "" ∧ mainTitle ≠ cleanQuery ∧ 2 < mainTitle.length then
        some mainTitle
      else findMainTitle cleanQuery rest
    else findMainTitle cleanQuery rest

def insLen (x : String) : List String → List String
  | [] => [x]
  | y :: t => if x.length < y.length then y :: insLen x t else x :: y :: t

/-- Embeds `sort((a, b) => b.length - a.length)`, stable, descending by length. -/
def sortLenDesc : List String → List String
  | [] => []
  | x :: t => insLen x (sortLenDesc t)

/-- Embeds `preprocessQuery`: clean the title and return at most one best variant. -/
def preprocessQuery (query : String) : List String :=
  if query = "" then []
  else
    let c0 := trimChars query.data
    let c1 := scrubEpisode c0
    let c2 := scrubResolution c1
    let c3 := scrubCodec c2
    let c4 := scrubRip c3
    let c5 := scrubCn c4
    let c6 := stripDelim '[' ']' c5
    let c7 := stripDelim '(' ')' c6
    let c8 := collapseRuns (fun ch => ch = '-' ∨ ch = '_') ' ' c7
    let c9 := trimChars (collapseRuns isWsC ' ' c8)
    let cleanQuery := String.mk c9
    let variants : List String :=
      if 2 < cleanQuery.length then
        match findMainTitle cleanQuery subtitleSeparators with
        | some mt => [cleanQuery, mt]
        | none => [cleanQuery]
      else []
    (sortLenDesc ((dedupJs variants).filter (fun v => 2 < v.length))).take 1

/-- Embeds `generatePrioritizedQueries`: only the primary (English) title is used;
the localized title parameter is ignored by the source. -/
def generatePrioritizedQueries (title : String)
    (_chineseTitle : Option String) : List String :=
  let t := jsTrimS title
  let queries : List String :=
    if title ≠ "" ∧ t ≠ "" then
      match (preprocessQuery title).head? with
      | some processed =>
        if processed ≠ "" ∧ processed ≠ t then [t, processed] else [t]
      | none => [t]
    else []
  (dedupJs queries).take 2

/-- Embeds `(19|20)\d{2}` at the head of `s`, with the trailing `\b`; returns the
numeric year. -/
def yearTokAt (s : List Char) : Option Nat :=
  match s with
  | a :: b :: c :: d :: rest =>
    if ((a = '1' ∧ b = '9') ∨ (a = '2' ∧ b = '0')) ∧ c.isDigit ∧ d.isDigit ∧
        bdryAt (some d) rest.head? = true then
      some ((a.toNat - 48) * 1000 + (b.toNat - 48) * 100 +
        (c.toNat - 48) * 10 + (d.toNat - 48))
    else none
  | _ => none

def findYearGo : Nat → Option Char → List Char → Option Nat
  | 0, _, _ => none
  | _ + 1, _, [] => none
  | fuel + 1, prev, c :: rest =>
    if bdryAt prev (some c) = true then
      match yearTokAt (c :: rest) with
      | some y => some y
      | none => findYearGo fuel (some c) rest
    else findYearGo fuel (some c) rest

/-- Embeds `extractYearFromQuery`: first `\b(19|20)\d{2}\b` match, accepted only in
`[1900, currentYear + 2]`. -/
def extractYearFromQuery (cy : Int) (query : String) : Option Int :=
  match findYearGo (query.data.length + 1) none query.data with
  | some y =>
    if 1900 ≤ (y : Int) ∧ (y : Int) ≤ cy + 2 then some (y : Int) else none
  | none => none

/-! ## Search orchestrator (`performOptimizedSearch` and `smartSearch`)

Scores live in `Option Int` (`none` = `NaN`); every comparison against a
`NaN` is false, as in JS.  The candidate sort is modelled as a stable
descending sort in which `NaN` scores sink to the end; the ECMAScript sort
order is implementation-defined once a comparator is inconsistent (which
`b.score - a.score` is when a score is `NaN`), so this fixes one concrete
refinement of it. -/

/-- JS `a > b` on possibly-`NaN` numbers. -/
def jsGtB : Option Int → Option Int → Bool
  | some a, some b => decide (b < a)
  | _, _ => false

/-- JS `a >= b` on possibly-`NaN` numbers. -/
def jsGeB : Option Int → Option Int → Bool
  | some a, some b => decide (b ≤ a)
  | _, _ => false

/-- JS `a < b` on possibly-`NaN` numbers. -/
def jsLtB (a b : Option Int) : Bool := jsGtB b a

/-- The running best of `performOptimizedSearch`. -/
structure BestResult where
  url : String
  score : Option Int
  query : String
deriving DecidableEq, Repr

structure ScoredItem where
  result : TMDBSearchResult
  score : Option Int
deriving DecidableEq, Repr

/-- Strict comparison used by the sort, with `NaN` below every number. -/
def scoreLtB : Option Int → Option Int → Bool
  | none, none => false
  | none, some _ => true
  | some _, none => false
  | some a, some b => decide (a < b)

def sortInsert (x : ScoredItem) : List ScoredItem → List ScoredItem
  | [] => [x]
  | y :: t =>
    if scoreLtB x.score y.score then y :: sortInsert x t else x :: y :: t

/-- Embeds `sort((a, b) => b.score - a.score)`: stable descending. -/
def sortScored : List ScoredItem → List ScoredItem
  | [] => []
  | x :: t => sortInsert x (sortScored t)

def tvUrlOf (id : Int) : String := "https://www.themoviedb.org/tv/" ++ toString id
def movieUrlOf (id : Int) : String := "https://www.themoviedb.org/movie/" ++ toString id

/-- Embeds `!bestResult || score > bestResult.score`. -/
def noneOrBeats (best : Option BestResult) (sc : Option Int) : Bool :=
  match best with
  | none => true
  | some b => jsGtB sc b.score

/-- Combined-search selection, TV half: first TV item of the sorted list, if
it clears 25 and beats the running best. -/
def tvSelect (query : String) (sorted : List ScoredItem)
    (best : Option BestResult) : Option BestResult :=
  match sorted.find? (fun it => decide (it.result.media_type = MediaType.tv)) with
  | none => best
  | some tvIt =>
    if jsGtB tvIt.score (some 25) then
      if noneOrBeats best tvIt.score then
        some ⟨tvUrlOf tvIt.result.id, tvIt.score, query⟩
      else best
    else best

/-- Combined-search selection, movie half: a movie item can only replace a
best whose url is not a TV link. -/
def movieSelect (query : String) (sorted : List ScoredItem)
    (best : Option BestResult) : Option BestResult :=
  match sorted.find? (fun it => decide (it.result.media_type = MediaType.movie)) with
  | none => best
  | some mvIt =>
    if jsGtB mvIt.score (some 25) then
      match best with
      | none => some ⟨movieUrlOf mvIt.result.id, mvIt.score, query⟩
      | some b =>
        if jsGtB mvIt.score b.score && !(jsIncludes b.url "/tv/") then
          some ⟨movieUrlOf mvIt.result.id, mvIt.score, query⟩
        else best
    else best

/-- The whole combined-search selection over the scored (already
year-adjusted) candidate list. -/
def selectCombined (query : String) (scored : List ScoredItem)
    (best : Option BestResult) : Option BestResult :=
  let sorted := sortScored scored
  movieSelect query sorted (tvSelect query sorted best)

/-- Embeds `+25` when a target year was extracted and the candidate year is within
one year of it. -/
def yearAdjust (ty : Option Int) (r : TMDBSearchResult) (sc : Option Int) :
    Option Int :=
  match ty with
  | none => sc
  | some t =>
    match effectiveDate r with
    | some y => if (y - t).natAbs ≤ 1 then sc.map (fun v => v + 25) else sc
    | none => sc

/-- Relevance score followed by the orchestrator year bonus, as applied to
combined-search candidates. -/
def combinedScore (ty : Option Int) (r : TMDBSearchResult) (query : String)
    (cy : Int) : Option Int :=
  yearAdjust ty r (calculateRelevanceScore r query cy)

/-- TV-only fallback block: score, sort, take the head, year-bonus it, and
adopt it when it clears 30; returns the new best and an early-return url when
the adopted score reaches 75. -/
def tvOnlyStep (query : String) (tvResults : List TMDBSearchResult)
    (ty : Option Int) (cy : Int) (best : Option BestResult) :
    Option BestResult × Option String :=
  if tvResults.length > 0 then
    match (sortScored (tvResults.map
        (fun r => ⟨r, calculateRelevanceScore r query cy⟩))).head? with
    | none => (best, none)
    | some top =>
      let bestTv : ScoredItem :=
        match ty, top.result.first_air_date with
        | some t, some y =>
          if (y - t).natAbs ≤ 1 then ⟨top.result, top.score.map (fun v => v + 25)⟩
          else top
        | _, _ => top
      if jsGtB bestTv.score (some 30) then
        if noneOrBeats best bestTv.score then
          let url := tvUrlOf bestTv.result.id
          if jsGeB bestTv.score (some 75) then
            (some ⟨url, bestTv.score, query⟩, some url)
          else (some ⟨url, bestTv.score, query⟩, none)
        else (best, none)
      else (best, none)
  else (best, none)

/-- Movie-only fallback block; the `/tv/` guard again protects a TV best. -/
def movieOnlyStep (query : String) (movieResults : List TMDBSearchResult)
    (ty : Option Int) (cy : Int) (best : Option BestResult) :
    Option BestResult × Option String :=
  if movieResults.length > 0 then
    match (sortScored (movieResults.map
        (fun r => ⟨r, calculateRelevanceScore r query cy⟩))).head? with
    | none => (best, none)
    | some top =>
      let bestMovie : ScoredItem :=
        match ty, top.result.release_date with
        | some t, some y =>
          if (y - t).natAbs ≤ 1 then ⟨top.result, top.score.map (fun v => v + 25)⟩
          else top
        | _, _ => top
      if jsGtB bestMovie.score (some 30) then
        let keep : Bool :=
          match best with
          | none => true
          | some b => jsGtB bestMovie.score b.score && !(jsIncludes b.url "/tv/")
        if keep then
          let url := movieUrlOf bestMovie.result.id
          if jsGeB bestMovie.score (some 75) then
            (some ⟨url, bestMovie.score, query⟩, some url)
          else (some ⟨url, bestMovie.score, query⟩, none)
        else (best, none)
      else (best, none)
  else (best, none)

/-- What the three catalog endpoints would return for each query. -/
structure SearchOracle where
  multi : String → List TMDBSearchResult
  tv : String → List TMDBSearchResult
  movie : String → List TMDBSearchResult

/-- Embeds `searchMulti`: first page, at most ten results. -/
def searchMultiO (oracle : SearchOracle) (query : String) :
    List TMDBSearchResult :=
  (oracle.multi (jsTrimS query)).take 10

/-- Embeds `searchTV`: stamps `media_type = tv` on every result. -/
def searchTVO (oracle : SearchOracle) (query : String) :
    List TMDBSearchResult :=
  (oracle.tv (jsTrimS query)).map (fun r => { r with media_type := MediaType.tv })

/-- Embeds `searchMovie`: stamps `media_type = movie` on every result. -/
def searchMovieO (oracle : SearchOracle) (query : String) :
    List TMDBSearchResult :=
  (oracle.movie (jsTrimS query)).map
    (fun r => { r with media_type := MediaType.movie })

/-- Outcome of the loop body for one query: an early-returned url (if any),
the updated best, and the number of catalog calls made. -/
structure StepOut where
  early : Option String
  best : Option BestResult
  calls : Nat
deriving DecidableEq, Repr

/-- Embeds `!bestResult || bestResult.score < 65`. -/
def noneOrBelow65 (best : Option BestResult) : Bool :=
  match best with
  | none => true
  | some b => jsLtB b.score (some 65)

/-- Embeds `bestResult && bestResult.score >= 75`. -/
def reaches75 (best : Option BestResult) : Bool :=
  match best with
  | none => false
  | some b => jsGeB b.score (some 75)

/-- The loop body of `performOptimizedSearch` for one query. -/
def processQuery (oracle : SearchOracle) (cy : Int) (ty : Option Int)
    (best0 : Option BestResult) (query : String) : StepOut :=
  let multiResults := searchMultiO oracle query
  let afterMulti : Option BestResult :=
    if multiResults.length > 0 then
      let scored := multiResults.map
        (fun r => ⟨r, calculateRelevanceScore r query cy⟩)
      let scored2 : List ScoredItem :=
        match ty with
        | some _ => scored.map (fun it => ⟨it.result, yearAdjust ty it.result it.score⟩)
        | none => scored
      selectCombined query scored2 best0
    else best0
  if noneOrBelow65 afterMulti then
    let (afterTv, earlyTv) :=
      tvOnlyStep query (searchTVO oracle query) ty cy afterMulti
    match earlyTv with
    | some url => ⟨some url, afterTv, 2⟩
    | none =>
      let (afterMv, earlyMv) :=
        movieOnlyStep query (searchMovieO oracle query) ty cy afterTv
      match earlyMv with
      | some url => ⟨some url, afterMv, 3⟩
      | none =>
        if reaches75 afterMv then
          ⟨(afterMv.map (fun b => b.url)), afterMv, 3⟩
        else ⟨none, afterMv, 3⟩
  else
    if reaches75 afterMulti then
      ⟨(afterMulti.map (fun b => b.url)), afterMulti, 1⟩
    else ⟨none, afterMulti, 1⟩

/-- Embeds `performOptimizedSearch(queries, extractedYear, searchedQueries,
bestResult)`.  Returns the resolved url (or `null`), the number of catalog
calls, and the final searched-query set. -/
def performOptimizedSearch (oracle : SearchOracle) (cy : Int)
    (queries : List String) (ty : Option Int) (searchedQueries : List String)
    (bestResult : Option BestResult) : Option String × Nat × List String :=
  match queries with
  | [] => (bestResult.map (fun b => b.url), 0, searchedQueries)
  | q :: rest =>
    if q ∈ searchedQueries then
      performOptimizedSearch oracle cy rest ty searchedQueries bestResult
    else
      let searched1 := searchedQueries ++ [q]
      let so := processQuery oracle cy ty bestResult q
      match so.early with
      | some url => (some url, so.calls, searched1)
      | none =>
        if searched1.length ≥ 1 then
          ((so.best.map (fun b => b.url)), so.calls, searched1)
        else
          let (r, n, sfin) :=
            performOptimizedSearch oracle cy rest ty searched1 so.best
          (r, so.calls + n, sfin)

/-! ## Result cache and `smartSearch` -/

structure CacheEntry where
  result : Option String
  timestamp : Int
deriving DecidableEq, Repr

/-- 24 hours in milliseconds. -/
def cacheExpireTime : Int := 24 * 60 * 60 * 1000

/-- Embeds `Map.get` (first and, for any reachable map, only entry of the key). -/
def lookupJs (c : List (String × CacheEntry)) (key : String) :
    Option CacheEntry :=
  (c.find? (fun p => decide (p.1 = key))).map Prod.snd

/-- Embeds `Map.set`: replace in place or append. -/
def jsMapSet : List (String × CacheEntry) → String → CacheEntry →
    List (String × CacheEntry)
  | [], k, e => [(k, e)]
  | (k1, e1) :: t, k, e =>
    if k1 = k then (k, e) :: t else (k1, e1) :: jsMapSet t k e

/-- Embeds `Map.delete key`: drop the first entry of the key. -/
def jsMapDelete : List (String × CacheEntry) → String →
    List (String × CacheEntry)
  | [], _ => []
  | (k1, e1) :: t, k =>
    if k1 = k then t else (k1, e1) :: jsMapDelete t k

/-- Embeds `getCachedResult`: `some value` on a fresh hit (the value itself may be
`none`, a cached null), `none` on a miss; an expired entry is deleted. -/
def getCachedResult (c : List (String × CacheEntry)) (now : Int)
    (cacheKey : String) :
    Option (Option String) × List (String × CacheEntry) :=
  match c.find? (fun p => decide (p.1 = cacheKey)) with
  | none => (none, c)
  | some p =>
    if now - p.2.timestamp > cacheExpireTime then (none, jsMapDelete c cacheKey)
    else (some p.2.result, c)

/-- Embeds `setCachedResult`: insert, then evict the oldest entry past 1000. -/
def setCachedResult (c : List (String × CacheEntry)) (now : Int)
    (cacheKey : String) (result : Option String) :
    List (String × CacheEntry) :=
  let c1 := jsMapSet c cacheKey ⟨result, now⟩
  if c1.length > 1000 then c1.tail else c1

def cacheKeyOf (title : String) (chineseTitle : Option String) : String :=
  title ++ "|" ++ chineseTitle.getD ""

structure SmartOut where
  result : Option String
  cache : List (String × CacheEntry)
  calls : Nat
deriving DecidableEq, Repr

/-- Embeds `smartSearch(title, chineseTitle)`; `now` is `Date.now()` for this call,
`cy` the current year, `cache` the service cache state.  Returns the resolved
link (or null), the new cache state, and the number of catalog calls. -/
def smartSearch (config : TMDBConfig) (oracle : SearchOracle) (cy now : Int)
    (cache : List (String × CacheEntry)) (title : String)
    (chineseTitle : Option String) : SmartOut :=
  if config.enabled ∧ config.apiKey ≠ "" then
    let key := cacheKeyOf title chineseTitle
    let gc := getCachedResult cache now key
    match gc.1 with
    | some v => ⟨v, gc.2, 0⟩
    | none =>
      let queries := generatePrioritizedQueries title chineseTitle
      let ty := extractYearFromQuery cy (title ++ " " ++ chineseTitle.getD "")
      let res := performOptimizedSearch oracle cy queries ty [] none
      ⟨res.1, setCachedResult gc.2 now key res.1, res.2.1⟩
  else ⟨none, cache, 0⟩

/-! ## Request level (`makeRequest` and the three search wrappers)

`net i` is what the network would deliver on attempt `i`: `none` is a failed
attempt, `some d` a response whose `.results` field is `d` (itself optional,
since the field may be missing).  `makeRequest` returns the outcome, the
number of attempts actually made, and the list of backoff delays slept. -/

def notConfiguredMsg : String := "TMDB API未配置或未启用"

def requestFailedMsg : String := "TMDB API请求失败"

def requestLoop (net : Nat → Option (Option (List TMDBSearchResult)))
    (attempt : Nat) :
    Nat → Except String (Option (List TMDBSearchResult)) × Nat × List Nat
  | 0 =>
    match net attempt with
    | some d => (.ok d, 1, [])
    | none => (.error requestFailedMsg, 1, [])
  | k + 1 =>
    match net attempt with
    | some d => (.ok d, 1, [])
    | none =>
      let (r, n, ds) := requestLoop net (attempt + 1) k
      (r, n + 1, min (1000 * 2 ^ attempt) 5000 :: ds)

/-- Embeds `makeRequest(endpoint, params, retries)`.  The not-configured check comes
before any network attempt. -/
def makeRequest (config : TMDBConfig) (retries : Nat)
    (net : Nat → Option (Option (List TMDBSearchResult))) :
    Except String (Option (List TMDBSearchResult)) × Nat × List Nat :=
  if config.enabled ∧ config.apiKey ≠ "" then requestLoop net 0 retries
  else (.error notConfiguredMsg, 0, [])

/-- Embeds `searchMulti`: catches every request failure and degrades to `[]`. -/
def searchMulti (config : TMDBConfig)
    (net : Nat → Option (Option (List TMDBSearchResult))) :
    List TMDBSearchResult :=
  match (makeRequest config 0 net).1 with
  | .ok d => (d.getD []).take 10
  | .error _ => []

/-- Embeds `searchTV`: failure degrades to `[]`, results are stamped `tv`. -/
def searchTV (config : TMDBConfig)
    (net : Nat → Option (Option (List TMDBSearchResult))) :
    List TMDBSearchResult :=
  match (makeRequest config 0 net).1 with
  | .ok d => (d.getD []).map (fun r => { r with media_type := MediaType.tv })
  | .error _ => []

/-- Embeds `searchMovie`: failure degrades to `[]`, results are stamped `movie`. -/
def searchMovie (config : TMDBConfig)
    (net : Nat → Option (Option (List TMDBSearchResult))) :
    List TMDBSearchResult :=
  match (makeRequest config 0 net).1 with
  | .ok d => (d.getD []).map (fun r => { r with media_type := MediaType.movie })
  | .error _ => []

/-! ## Title extractor (`RSSService.extractTVShowTitle`)

Each source pattern `/^(.+?)\s+TOK/` is a lazy anchored capture; the capture
is the shortest nonempty prefix after which whitespace and the token match.
Quantifier backtracking inside the tokens can never repair a failed match
here (shortening a digit run or dropping an optional letter always leaves two
word characters adjacent where whitespace or the token head is required), so
each token is matched greedily once. -/

def tokSE : List Char → Bool
  | c :: r =>
    if c.toLower = 's' then
      let d1 := leadDigits r
      if d1 = 0 then false
      else
        match r.drop d1 with
        | e :: r2 => if e.toLower = 'e' then decide (1 ≤ leadDigits r2) else false
        | [] => false
    else false
  | [] => false

def tokS : List Char → Bool
  | c :: r => if c.toLower = 's' then decide (1 ≤ leadDigits r) else false
  | [] => false

def tok4d (l : List Char) : Bool := decide (4 ≤ leadDigits l)

def tok34p (l : List Char) : Bool := !(alt34p l).isEmpty

def tokLits (lits : List String) (l : List Char) : Bool :=
  lits.any (fun lit => ciPrefix lit.data l)

/-- Embeds `H\.\d+` (the dot is mandatory in the extractor patterns). -/
def tokHdotReq : List Char → Bool
  | c :: d :: r => c.toLower = 'h' && d = '.' && decide (1 ≤ leadDigits r)
  | _ => false

def tokSeason (l : List Char) : Bool :=
  if ciPrefix ("Season".data) l then
    let r := l.drop 6
    let w := (r.takeWhile isWsC).length
    if w = 0 then false else decide (1 ≤ leadDigits (r.drop w))
  else false

def isCnNumC (c : Char) : Bool :=
  c ∈ [ '一', '二', '三', '四', '五', '六', '七', '八', '九', '十' ] || c.isDigit

/-- Embeds `第[一二三四五六七八九十\d]+季`. -/
def tokDiJi : List Char → Bool
  | c :: r =>
    if c = '第' then
      let d := (r.takeWhile isCnNumC).length
      if d = 0 then false
      else
        match r.drop d with
        | e :: _ => e = '季'
        | [] => false
    else false
  | [] => false

/-- Embeds `-\s*[A-Z][a-zA-Z0-9]+$` (no `i` flag on this pattern). -/
def tok8 : List Char → Bool
  | c :: r =>
    if c = '-' then
      match r.dropWhile isWsC with
      | u :: r3 => u.isUpper && !r3.isEmpty && r3.all Char.isAlphanum
      | [] => false
    else false
  | [] => false

/-- Lazy anchored capture: shortest nonempty prefix of `allowed` characters
after which `tail` holds on the remainder. -/
def lazyCapGo (allowed : Char → Bool) (tail : List Char → Bool) :
    Nat → List Char → List Char → Option (List Char)
  | 0, _, _ => none
  | _ + 1, _, [] => none
  | fuel + 1, acc, c :: rest =>
    if allowed c then
      let acc2 := acc ++ [c]
      if tail rest then some acc2
      else lazyCapGo allowed tail fuel acc2 rest
    else none

def lazyCap (allowed : Char → Bool) (tail : List Char → Bool)
    (s : List Char) : Option (List Char) :=
  lazyCapGo allowed tail (s.length + 1) [] s

/-- Embeds `\s+` then the token (tokens never start with whitespace, so the greedy
whitespace run is consumed whole). -/
def wsPlusThen (tok : List Char → Bool) (l : List Char) : Bool :=
  match l with
  | c :: _ => if isWsC c then tok (l.dropWhile isWsC) else false
  | [] => false

/-- Embeds `\s*` then the token. -/
def wsStarThen (tok : List Char → Bool) (l : List Char) : Bool :=
  tok (l.dropWhile isWsC)

def stripTrailJunk (l : List Char) : List Char :=
  (l.reverse.dropWhile (fun c => c = '-' ∨ c = '_' ∨ isWsC c = true)).reverse

def stripLeadJunk (l : List Char) : List Char :=
  l.dropWhile (fun c => c = '-' ∨ c = '_' ∨ isWsC c = true)

/-- One frog-site pattern: `/^(.+?)\s+TOK/i`, then trim, strip trailing
junk, and keep only captures longer than two characters. -/
def qingwaTry (tok : List Char → Bool) (clean : List Char) : Option String :=
  match lazyCap (fun c => c ≠ '\n') (wsPlusThen tok) clean with
  | some cap =>
    let e := stripTrailJunk (trimChars cap)
    if 2 < e.length then some (String.mk e) else none
  | none => none

/-- One generic pattern: like `qingwaTry` but with a restricted capture
class, a configurable gap, and a leading-junk strip as well. -/
def genericTry (allowed : Char → Bool) (tail : List Char → Bool)
    (clean : List Char) : Option String :=
  match lazyCap allowed tail clean with
  | some cap =>
    let e := stripLeadJunk (stripTrailJunk (trimChars cap))
    if 2 < e.length then some (String.mk e) else none
  | none => none

def noSClass (c : Char) : Bool := c ≠ 'S' && c ≠ 's'

def noDiClass (c : Char) : Bool := c ≠ '第'

/-- Embeds `[^\s\-\[\(]`. -/
def p9Allowed (c : Char) : Bool :=
  !(isWsC c) && c ≠ '-' && c ≠ '[' && c ≠ '('

/-- The lookahead alternatives of the ninth generic pattern. -/
def p9LookAlts (r : List Char) : Bool :=
  tok34p r || tokS r || tok4d r ||
  tokLits [ "WEB", "BluRay", "BDRip", "DVDRip", "HDTV" ] r ||
  (match r with
   | c :: d :: _ => c.toLower = 'h' && d = '.'
   | _ => false) ||
  (match r with
   | c :: d :: _ => c = '-' && d.isAlpha
   | _ => false)

/-- Embeds `(?=\s+(...))`. -/
def p9Look (l : List Char) : Bool :=
  match l with
  | c :: _ => if isWsC c then p9LookAlts (l.dropWhile isWsC) else false
  | [] => false

/-- Lazily extend the captured word group until the lookahead holds. -/
def p9Go : Nat → List Char → List Char → Option (List Char)
  | 0, _, _ => none
  | fuel + 1, acc, l =>
    if p9Look l then some acc
    else
      match l with
      | c :: _ =>
        if isWsC c then
          let ws := l.takeWhile isWsC
          let r := l.dropWhile isWsC
          let w := r.takeWhile p9Allowed
          if w.length = 0 then none
          else p9Go fuel (acc ++ ws ++ w) (r.drop w.length)
        else none
      | [] => none

/-- Ninth generic pattern: word group with a release-marker lookahead. -/
def genericP9 (clean : List Char) : Option String :=
  let w1 := clean.takeWhile p9Allowed
  if w1.length = 0 then none
  else
    match p9Go (clean.length + 1) w1 (clean.drop w1.length) with
    | some cap =>
      let e := stripLeadJunk (stripTrailJunk (trimChars cap))
      if 2 < e.length then some (String.mk e) else none
    | none => none

/-- Tenth generic pattern: the first maximal run of allowed characters. -/
def genericP10 (clean : List Char) : Option String :=
  let w := clean.takeWhile p9Allowed
  if w.length = 0 then none
  else
    let e := stripLeadJunk (stripTrailJunk (trimChars w))
    if 2 < e.length then some (String.mk e) else none

/-- First pattern of an ordered cascade that yields a long-enough capture. -/
def cascade (clean : List Char) :
    List (List Char → Option String) → Option String
  | [] => none
  | f :: rest =>
    match f clean with
    | some e => some e
    | none => cascade clean rest

def qingwaPatterns : List (List Char → Option String) :=
  [ qingwaTry tokSE, qingwaTry tokS, qingwaTry tok4d, qingwaTry tok34p,
    qingwaTry (tokLits [ "WEB", "BluRay", "BDRip", "DVDRip", "HDTV", "CR" ]),
    qingwaTry tokHdotReq ]

def genericPatterns : List (List Char → Option String) :=
  [ genericTry noSClass (wsPlusThen tokS),
    genericTry noSClass (wsPlusThen tokSeason),
    genericTry noDiClass (wsStarThen tokDiJi),
    genericTry (fun c => c ≠ '\n') (wsPlusThen tok34p),
    genericTry (fun c => c ≠ '\n') (wsPlusThen tokHdotReq),
    genericTry (fun c => c ≠ '\n')
      (wsPlusThen (tokLits [ "WEB", "BluRay", "BDRip", "DVDRip", "HDTV" ])),
    genericTry (fun c => c ≠ '\n') (wsPlusThen tok4d),
    genericTry (fun c => c ≠ '\n') (wsPlusThen tok8),
    genericP9,
    genericP10 ]

/-- Embeds `replace(/\[.*?\].*$/, "")`: cut from the first opening bracket that has
a closing bracket with no newline in between and none after it. -/
def bracketCutFrom : Nat → List Char → List Char
  | 0, s => s
  | _ + 1, [] => []
  | fuel + 1, c :: rest =>
    if c = '[' then
      match findCloseNoNl ']' rest with
      | some after =>
        if after.contains '\n' then c :: bracketCutFrom fuel rest else []
      | none => c :: bracketCutFrom fuel rest
    else c :: bracketCutFrom fuel rest

def cleanTitleOf (title : String) : List Char :=
  trimChars (bracketCutFrom (title.data.length + 1) (trimChars title.data))

/-- Embeds `split(/\s+/)` on an already-trimmed string. -/
def wsRunsGo : Nat → List Char → List (List Char)
  | 0, _ => []
  | _ + 1, [] => []
  | fuel + 1, l =>
    let w := l.takeWhile (fun c => !(isWsC c))
    w :: wsRunsGo fuel ((l.drop w.length).dropWhile isWsC)

def jsSplitWsTrimmed (l : List Char) : List (List Char) :=
  if l.isEmpty then [[]] else wsRunsGo (l.length + 1) l

def joinSpace : List (List Char) → List Char
  | [] => []
  | [w] => w
  | w :: ws => w ++ ' ' :: joinSpace ws

/-- Final fallback of the extractor: first meaningful word group. -/
def fallbackWords (clean : List Char) : Option String :=
  match jsSplitWsTrimmed clean with
  | [] => none
  | w0 :: restW =>
    let words := w0 :: restW
    let r1 :=
      if w0.any (fun c => c = '-' ∨ c = '_')
      then w0.map (fun c => if c = '-' ∨ c = '_' then ' ' else c)
      else w0
    let r2 :=
      if r1.length ≤ 2 ∧ words.length > 1 then joinSpace (words.take 2) else r1
    if 2 < r2.length then some (String.mk r2) else none

/-- Embeds `extractTVShowTitle`: bracket cleanup, frog-site cascade, generic
cascade, then the word fallback. -/
def extractTVShowTitle (title : String) : Option String :=
  if title = "" then none
  else
    let clean := cleanTitleOf title
    match cascade clean qingwaPatterns with
    | some e => some e
    | none =>
      match cascade clean genericPatterns with
      | some e => some e
      | none => fallbackWords clean

/-! ## Claim statements under test, and concrete inputs for the examples -/

/-- Claim: the scorer always yields a non-negative integer, for every
candidate and query (including queries whose words are all of length one and
candidates with empty or missing titles). -/
def scoreTotalClaim : Prop :=
  ∀ (r : TMDBSearchResult) (q : String) (cy : Int),
    ∃ s : Int, calculateRelevanceScore r q cy = some s ∧ 0 ≤ s

/-- Claim: an exact case-insensitive title match scores at least as much as
a candidate that only partially matches the query (no identity and no
substring relation either way), all non-title attributes equal. -/
def scoreMonotoneClaim : Prop :=
  ∀ (q : String) (cy : Int) (cA cB : TMDBSearchResult),
    lowerS (titleOf cA) = lowerS q →
    lowerS (titleOf cB) ≠ lowerS q →
    jsIncludes (lowerS (titleOf cB)) (lowerS q) = false →
    jsIncludes (lowerS q) (lowerS (titleOf cB)) = false →
    cA.vote_average = cB.vote_average →
    cA.release_date = cB.release_date →
    cA.first_air_date = cB.first_air_date →
    cA.popularity = cB.popularity →
    ∃ a b : Int, calculateRelevanceScore cA q cy = some a ∧
      calculateRelevanceScore cB q cy = some b ∧ b ≤ a

/-- Claim: two candidates identical except for their release year, one within
one year of the extracted target and the other not, end up exactly 25 points
apart after the orchestrator year bonus. -/
def yearBonusExactClaim : Prop :=
  ∀ (ty cy yA yB : Int) (q : String) (rA rB : TMDBSearchResult),
    rA.title = rB.title → rA.name = rB.name →
    rA.vote_average = rB.vote_average → rA.popularity = rB.popularity →
    rA.release_date = some yA → rB.release_date = some yB →
    (yA - ty).natAbs ≤ 1 → ¬((yB - ty).natAbs ≤ 1) →
    ∃ a b : Int, combinedScore (some ty) rA q cy = some a ∧
      combinedScore (some ty) rB q cy = some b ∧ a = b + 25

/-- Claim: every emitted query variant is at least three characters long. -/
def plannerMinLenClaim : Prop :=
  ∀ (title : String) (ch : Option String) (v : String),
    v ∈ generatePrioritizedQueries title ch → 3 ≤ v.length

/-- Exact-match candidate for the scoring examples. -/
def candExact : TMDBSearchResult :=
  ⟨ 1, some "a", none, none, none, MediaType.tv, 0, 0 ⟩

/-- Partial-match candidate whose score the source turns into `NaN` for the
query made of one single-letter word. -/
def candPartial : TMDBSearchResult :=
  ⟨ 2, some "xyz", none, none, none, MediaType.tv, 0, 0 ⟩

/-- Exact-match witness candidate for the monotonicity theorem. -/
def candBearFull : TMDBSearchResult :=
  ⟨ 3, some "The Bear", none, none, none, MediaType.tv, 0, 0 ⟩

/-- Substring-match witness candidate for the monotonicity theorem. -/
def candBearShort : TMDBSearchResult :=
  ⟨ 4, some "Bear", none, none, none, MediaType.movie, 0, 0 ⟩

/-- Year-bonus candidate matching the extracted year. -/
def candYearNear : TMDBSearchResult :=
  ⟨ 5, some "Foo", none, some 1950, none, MediaType.tv, 0, 0 ⟩

/-- Year-bonus candidate far from the extracted year. -/
def candYearFar : TMDBSearchResult :=
  ⟨ 5, some "Foo", none, some 1900, none, MediaType.tv, 0, 0 ⟩

/-- Year-bonus counterexample candidate in the recent-recency bucket. -/
def candYearNow : TMDBSearchResult :=
  ⟨ 5, some "Foo", none, some 2025, none, MediaType.tv, 0, 0 ⟩

/-- Scenario-C style TV candidate, already scored. -/
def scTvItem : ScoredItem :=
  ⟨ ⟨ 10, none, some "Bear", none, none, MediaType.tv, 9, 0 ⟩, some 140 ⟩

/-- Scenario-C style movie candidate, already scored. -/
def scMovieItem : ScoredItem :=
  ⟨ ⟨ 11, some "Bear", none, some 1988, none, MediaType.movie, 6, 0 ⟩, some 90 ⟩

/-- An oracle whose every search comes back empty. -/
def emptyOracle : SearchOracle := ⟨ fun _ => [], fun _ => [], fun _ => [] ⟩

/-- Starting cache state of the idempotence witness. -/
def cache2w : List (String × CacheEntry) := []

/-- An enabled configuration with a credential. -/
def onConfig : TMDBConfig := ⟨ "key", true ⟩

/-- A disabled configuration without a credential. -/
def offConfig : TMDBConfig := ⟨ "", false ⟩

/-- A network that fails every attempt. -/
def failNet : Nat → Option (Option (List TMDBSearchResult)) := fun _ => none

/-- Descending-score order used to state sortedness of `sortScored`. -/
def scoredGe (a b : ScoredItem) : Prop :=
  match a.score, b.score with
  | _, none => True
  | none, some _ => False
  | some x, some y => y ≤ x

/-- The one-letter query of the NaN examples. -/
def qA : String := "a"

/-- Query for the monotonicity witness. -/
def qBear : String := "The Bear"

/-- Query for the year-bonus examples. -/
def qFoo : String := "Foo"

/-- Query for the combined-selection witness. -/
def qBearW : String := "Bear"

/-- Too-short raw title for the planner counterexample. -/
def qAB : String := "ab"

/-- Non-empty localized title for the planner counterexample. -/
def qABCD : String := "abcd"

/-- The raw feed title of Scenario A. -/
def scenarioATitle : String := "The Bear S03E01 1080p WEB-DL H.264"

/-! ## Helper lemmas: edit distance and similarity -/

theorem lev_cons_cons (x y : Char) (xs ys : List Char) :
    lev (x :: xs) (y :: ys) =
      min (lev xs (y :: ys) + 1)
        (min (lev (x :: xs) ys + 1)
          (lev xs ys + (if x = y then 0 else 1))) := rfl

theorem lev_self : ∀ l : List Char, lev l l = 0
  | [] => rfl
  | x :: xs => by rw [lev_cons_cons, lev_self xs]; simp

theorem lev_le_max : ∀ l1 l2 : List Char, lev l1 l2 ≤ max l1.length l2.length := by
  intro l1
  induction l1 with
  | nil => intro l2; simp [lev]
  | cons x xs ih =>
    intro l2
    cases l2 with
    | nil => simp [lev, levAux]
    | cons y ys =>
      rw [lev_cons_cons]
      have h3 : lev xs ys + (if x = y then 0 else 1) ≤ max xs.length ys.length + 1 := by
        have := ih ys
        split <;> omega
      have hmin : min (lev xs (y :: ys) + 1)
          (min (lev (x :: xs) ys + 1) (lev xs ys + (if x = y then 0 else 1))) ≤
          lev xs ys + (if x = y then 0 else 1) :=
        le_trans (min_le_right _ _) (min_le_right _ _)
      simp only [List.length_cons]
      omega

theorem sim_self (s : String) : calculateStringSimilarity s s = 1 := by
  unfold calculateStringSimilarity
  simp only []
  by_cases h : s.data.length = 0
  · simp [h]
  · have hne : ((s.data.length : Nat) : Rat) ≠ 0 := Nat.cast_ne_zero.mpr h
    rw [if_neg h, if_neg h, lev_self, max_self, Nat.cast_zero, sub_zero,
      div_self hne]

theorem sim_nonneg (s t : String) : 0 ≤ calculateStringSimilarity s t := by
  unfold calculateStringSimilarity
  simp only []
  split_ifs
  · norm_num
  · norm_num
  · norm_num
  · apply div_nonneg
    · rw [sub_nonneg]
      exact_mod_cast lev_le_max s.data t.data
    · positivity

theorem sim_le_one (s t : String) : calculateStringSimilarity s t ≤ 1 := by
  unfold calculateStringSimilarity
  simp only []
  split_ifs with h1 h2 h3
  · norm_num
  · norm_num
  · norm_num
  · have hpos : (0 : Rat) < ((max s.data.length t.data.length : Nat) : Rat) := by
      have h : 0 < max s.data.length t.data.length := by omega
      exact_mod_cast h
    rw [div_le_one hpos]
    have hnn : (0 : Rat) ≤ ((lev s.data t.data : Nat) : Rat) := by positivity
    linarith

/-! ## Helper lemmas: scorer bounds -/

theorem countTokenMatches_bounds (tws : List String) :
    ∀ qws : List String,
      (countTokenMatches tws qws).1 ≤ (countTokenMatches tws qws).2 ∧
      (countTokenMatches tws qws).2 ≤ qws.length := by
  intro qws
  induction qws with
  | nil => simp [countTokenMatches]
  | cons qw rest ih =>
    simp only [countTokenMatches, List.length_cons]
    rcases h : tokenMatchKind qw tws with _ | b
    · simp only [h]
      omega
    · cases b <;> simp only [h] <;> omega

theorem relevanceBase_bounds {t q : String} {b : Rat}
    (h : relevanceBase t q = some b) : 0 ≤ b ∧ b ≤ 100 := by
  unfold relevanceBase at h
  split_ifs at h with h1 h2 h3
  · cases Option.some.inj h; constructor <;> norm_num
  · cases Option.some.inj h; constructor <;> norm_num
  · cases Option.some.inj h; constructor <;> norm_num
  · simp only [] at h
    set tws := (splitOnSpace t).filter (fun w => decide (1 < w.length)) with htws
    set qws := (splitOnSpace q).filter (fun w => decide (1 < w.length)) with hqws
    by_cases hL : qws.length = 0
    · rw [if_pos hL] at h
      exact Option.noConfusion h
    · rw [if_neg hL] at h
      have hcb := countTokenMatches_bounds tws qws
      have hLpos : (0 : Rat) < (qws.length : Rat) := by
        have hp : 0 < qws.length := Nat.pos_of_ne_zero hL
        exact_mod_cast hp
      have hf1 : ((countTokenMatches tws qws).1 : Rat) / (qws.length : Rat) ≤ 1 := by
        rw [div_le_one hLpos]
        exact_mod_cast le_trans hcb.1 hcb.2
      have hf2 : ((countTokenMatches tws qws).2 : Rat) / (qws.length : Rat) ≤ 1 := by
        rw [div_le_one hLpos]
        exact_mod_cast hcb.2
      have hn1 : (0 : Rat) ≤
          ((countTokenMatches tws qws).1 : Rat) / (qws.length : Rat) := by positivity
      have hn2 : (0 : Rat) ≤
          ((countTokenMatches tws qws).2 : Rat) / (qws.length : Rat) := by positivity
      split_ifs at h <;> cases Option.some.inj h <;> constructor <;> linarith

theorem voteBonus_nonneg (v : Rat) : 0 ≤ voteBonus v := by
  unfold voteBonus; split_ifs <;> norm_num

theorem recencyBonus_nonneg (y cy : Int) : 0 ≤ recencyBonus y cy := by
  unfold recencyBonus; split_ifs <;> norm_num

theorem popBonus_nonneg (r : TMDBSearchResult) : 0 ≤ popBonus r := by
  unfold popBonus
  split_ifs with h
  · apply le_min _ (by norm_num)
    have := h.2
    positivity
  · norm_num

theorem jsRound_nonneg {x : Rat} (h : 0 ≤ x) : 0 ≤ jsRound x := by
  unfold jsRound
  have : ((0 : Int) : Rat) ≤ x + 1 / 2 := by push_cast; linarith
  exact Int.le_floor.mpr this

theorem jsRound_mono {x y : Rat} (h : x ≤ y) : jsRound x ≤ jsRound y := by
  unfold jsRound
  exact Int.floor_le_floor (by linarith)

/-! ## C6: score non-negativity -/

/-- C6 counterexample: for the query made of one single-letter word and a
candidate sharing nothing with it, the source computes `0/0`, so the score is
`NaN` (modelled `none`), not a non-negative integer. -/
theorem scoreTotalClaim_false : ¬ scoreTotalClaim := by
  intro h
  obtain ⟨s, hs, _⟩ := h candPartial qA 0
  have hnone : calculateRelevanceScore candPartial qA 0 = none := by decide
  rw [hnone] at hs
  exact Option.noConfusion hs

/-- C6 (amended): whenever the relevance score is a number — that is, unless
the query has no word longer than one character while no identity or
substring branch applies — it is a non-negative integer. -/
theorem score_nonneg_of_defined :
    ∀ (r : TMDBSearchResult) (q : String) (cy : Int) (s : Int),
      calculateRelevanceScore r q cy = some s → 0 ≤ s := by
  intro r q cy s h
  unfold calculateRelevanceScore at h
  simp only [] at h
  rcases hb : relevanceBase (lowerS (titleOf r)) (lowerS q) with _ | bb
  · rw [hb] at h
    exact Option.noConfusion h
  · rw [hb, Option.map_some'] at h
    cases Option.some.inj h
    apply jsRound_nonneg
    have hbb := (relevanceBase_bounds hb).1
    have hsim := sim_nonneg (lowerS (titleOf r)) (lowerS q)
    have hsim15 : (0 : Rat) ≤ calculateStringSimilarity (lowerS (titleOf r)) (lowerS q) * 15 :=
      mul_nonneg hsim (by norm_num)
    have hv := voteBonus_nonneg r.vote_average
    have hp := popBonus_nonneg r
    clear h
    rcases hd : effectiveDate r with _ | y
    · simp only []
      exact add_nonneg (add_nonneg (add_nonneg (add_nonneg hbb hsim15) hv) le_rfl) hp
    · simp only []
      have hr := recencyBonus_nonneg y cy
      exact add_nonneg (add_nonneg (add_nonneg (add_nonneg hbb hsim15) hv) hr) hp

/-- C6 witness: the amended theorem instantiated on a well-behaved input. -/
theorem score_nonneg_of_defined_witness :
    calculateRelevanceScore candExact qA 0 = some 115 ∧ (0 : Int) ≤ 115 :=
  ⟨by decide, score_nonneg_of_defined candExact qA 0 115 (by decide)⟩

/-! ## C4: exact match dominates -/

/-- C4 counterexample: against the query made of one single-letter word, the
partial-match candidate scores `NaN`, so no comparison with the exact-match
candidate holds. -/
theorem scoreMonotoneClaim_false : ¬ scoreMonotoneClaim := by
  intro h
  obtain ⟨a, b, _, hb, _⟩ :=
    h qA 0 candExact candPartial (by decide) (by decide) (by decide) (by decide)
      rfl rfl rfl rfl
  have hnone : calculateRelevanceScore candPartial qA 0 = none := by decide
  rw [hnone] at hb
  exact Option.noConfusion hb

/-- C4 (amended): an exact case-insensitive title match scores at least as
much as any candidate whose score is a number, all non-title attributes
(vote average, dates, popularity) equal. -/
theorem exact_match_score_ge :
    ∀ (q : String) (cy : Int) (cA cB : TMDBSearchResult) (b : Int),
      lowerS (titleOf cA) = lowerS q →
      cA.vote_average = cB.vote_average →
      cA.release_date = cB.release_date →
      cA.first_air_date = cB.first_air_date →
      cA.popularity = cB.popularity →
      calculateRelevanceScore cB q cy = some b →
      ∃ a : Int, calculateRelevanceScore cA q cy = some a ∧ b ≤ a := by
  intro q cy cA cB b hex hv hrd hfa hp hB
  unfold calculateRelevanceScore at hB ⊢
  simp only [] at hB ⊢
  rcases hbB : relevanceBase (lowerS (titleOf cB)) (lowerS q) with _ | bB
  · rw [hbB] at hB
    exact Option.noConfusion hB
  · rw [hbB, Option.map_some'] at hB
    cases Option.some.inj hB
    have hbA : relevanceBase (lowerS (titleOf cA)) (lowerS q) = some 100 := by
      rw [hex]
      unfold relevanceBase
      rw [if_pos rfl]
    rw [hbA, Option.map_some']
    refine ⟨_, rfl, ?_⟩
    apply jsRound_mono
    have hsimA : calculateStringSimilarity (lowerS (titleOf cA)) (lowerS q) = 1 := by
      rw [hex]
      exact sim_self _
    have hsimB1 := sim_le_one (lowerS (titleOf cB)) (lowerS q)
    have hsimB0 := sim_nonneg (lowerS (titleOf cB)) (lowerS q)
    have hbounds := relevanceBase_bounds hbB
    have hvb : voteBonus cB.vote_average = voteBonus cA.vote_average := by rw [hv]
    have hed : effectiveDate cB = effectiveDate cA := by
      unfold effectiveDate
      rw [hrd, hfa]
    have hpb : popBonus cB = popBonus cA := by
      unfold popBonus
      rw [hv, hp]
    rw [hsimA, hvb, hed, hpb]
    have h15 : calculateStringSimilarity (lowerS (titleOf cB)) (lowerS q) * 15 ≤ 15 := by
      nlinarith
    rcases effectiveDate cA with _ | y <;> · simp only []; linarith [hbounds.2]

/-- C4 witness: exact match versus a contained-title candidate. -/
theorem exact_match_score_ge_witness :
    calculateRelevanceScore candBearShort qBear 2025 = some 68 ∧
    ∃ a : Int, calculateRelevanceScore candBearFull qBear 2025 = some a ∧ 68 ≤ a :=
  ⟨by decide,
    exact_match_score_ge qBear 2025 candBearFull candBearShort 68 (by decide)
      rfl rfl rfl rfl (by decide)⟩

/-! ## C5: the year bonus -/

/-- C5 counterexample: when the target year is the current year, the near
candidate also picks up a recency bonus the far candidate misses, so the gap
is 35, not 25. -/
theorem yearBonusExactClaim_false : ¬ yearBonusExactClaim := by
  intro h
  obtain ⟨a, b, ha, hb, hab⟩ :=
    h 2025 2025 2025 1900 qFoo candYearNow candYearFar rfl rfl rfl rfl rfl rfl
      (by decide) (by decide)
  have h1 : combinedScore (some 2025) candYearNow qFoo 2025 = some 150 := by decide
  have h2 : combinedScore (some 2025) candYearFar qFoo 2025 = some 115 := by decide
  rw [h1] at ha
  rw [h2] at hb
  cases Option.some.inj ha
  cases Option.some.inj hb
  omega

/-- C5 (amended): when, additionally, the two release years earn the same
recency bonus (for instance both are more than five years old) and the far
score is a number, the near candidate scores exactly 25 more. -/
theorem year_bonus_adds_25 :
    ∀ (ty cy yA yB : Int) (q : String) (rA rB : TMDBSearchResult) (b : Int),
      rA.title = rB.title → rA.name = rB.name →
      rA.vote_average = rB.vote_average → rA.popularity = rB.popularity →
      rA.release_date = some yA → rB.release_date = some yB →
      (yA - ty).natAbs ≤ 1 → ¬((yB - ty).natAbs ≤ 1) →
      recencyBonus yA cy = recencyBonus yB cy →
      combinedScore (some ty) rB q cy = some b →
      combinedScore (some ty) rA q cy = some (b + 25) := by
  intro ty cy yA yB q rA rB b ht hn hv hp hrA hrB hnear hfar hrec hB
  have hedA : effectiveDate rA = some yA := by
    unfold effectiveDate
    rw [hrA]
  have hedB : effectiveDate rB = some yB := by
    unfold effectiveDate
    rw [hrB]
  have hsame : calculateRelevanceScore rA q cy = calculateRelevanceScore rB q cy := by
    unfold calculateRelevanceScore
    simp only []
    have htitle : titleOf rA = titleOf rB := by
      unfold titleOf jsOrS
      rw [ht, hn]
    have hpb : popBonus rA = popBonus rB := by
      unfold popBonus
      rw [hv, hp]
    rw [htitle, hv, hedA, hedB, hpb]
    simp only []
    rw [hrec]
  unfold combinedScore yearAdjust at hB ⊢
  rw [hedA]
  rw [hedB] at hB
  simp only [] at hB
  rw [if_neg hfar] at hB
  simp only [hnear, if_pos, hsame]
  rw [hB]
  rfl

/-- C5 witness: target year 1950, both candidates in the zero-recency
bucket, gap exactly 25. -/
theorem year_bonus_adds_25_witness :
    combinedScore (some 1950) candYearFar qFoo 2025 = some 115 ∧
    combinedScore (some 1950) candYearNear qFoo 2025 = some (115 + 25) :=
  ⟨by decide,
    year_bonus_adds_25 1950 2025 1950 1900 qFoo candYearNear candYearFar 115
      rfl rfl rfl rfl rfl rfl (by decide) (by decide) (by decide) (by decide)⟩

/-! ## C7: the query planner -/

theorem dedupJsGo_nodup :
    ∀ (l seen : List String),
      (dedupJsGo seen l).Nodup ∧ ∀ x ∈ dedupJsGo seen l, x ∉ seen := by
  intro l
  induction l with
  | nil => intro seen; simp [dedupJsGo]
  | cons x xs ih =>
    intro seen
    by_cases hx : x ∈ seen
    · simpa [dedupJsGo, hx] using ih seen
    · have ihx := ih (x :: seen)
      refine ⟨?_, ?_⟩
      · simp only [dedupJsGo, if_neg hx, List.nodup_cons]
        constructor
        · intro hmem
          exact (ihx.2 x hmem) (List.mem_cons_self x seen)
        · exact ihx.1
      · intro y hy
        simp only [dedupJsGo, if_neg hx, List.mem_cons] at hy
        rcases hy with rfl | hy
        · exact hx
        · intro hys
          exact (ihx.2 y hy) (List.mem_cons_of_mem x hys)

theorem dedupJs_nodup (l : List String) : (dedupJs l).Nodup :=
  (dedupJsGo_nodup l []).1

theorem dedupJsGo_subset :
    ∀ (l seen : List String) (x : String), x ∈ dedupJsGo seen l → x ∈ l := by
  intro l
  induction l with
  | nil => intro seen x h; simp [dedupJsGo] at h
  | cons y ys ih =>
    intro seen x h
    by_cases hy : y ∈ seen
    · rw [dedupJsGo, if_pos hy] at h
      exact List.mem_cons_of_mem y (ih seen x h)
    · rw [dedupJsGo, if_neg hy] at h
      rcases List.mem_cons.mp h with rfl | h2
      · exact List.mem_cons_self x ys
      · exact List.mem_cons_of_mem y (ih (y :: seen) x h2)

/-- C7 counterexample: the planner emits the raw trimmed primary title
unfiltered, so a two-character title yields a two-character variant (and the
non-empty localized title contributes nothing). -/
theorem plannerMinLenClaim_false : ¬ plannerMinLenClaim := by
  intro h
  have hmem : qAB ∈ generatePrioritizedQueries qAB (some qABCD) := by decide
  exact absurd (h qAB (some qABCD) qAB hmem) (by decide)

/-- C7 (amended): the planner ignores the localized title entirely; it emits
the raw trimmed primary title first, plus at most the one cleaned variant
when that differs; the list is deduplicated and capped at two, with no
minimum length on the raw title. -/
theorem planner_shape :
    ∀ (title : String) (ch : Option String),
      generatePrioritizedQueries title ch = generatePrioritizedQueries title none ∧
      (generatePrioritizedQueries title ch).length ≤ 2 ∧
      (generatePrioritizedQueries title ch).Nodup ∧
      ((title ≠ "" ∧ jsTrimS title ≠ "") →
        (generatePrioritizedQueries title ch).head? = some (jsTrimS title)) ∧
      (∀ v ∈ generatePrioritizedQueries title ch,
        v = jsTrimS title ∨ (preprocessQuery title).head? = some v) := by
  intro title ch
  refine ⟨rfl, ?_, ?_, ?_, ?_⟩
  · unfold generatePrioritizedQueries
    rw [List.length_take]
    exact min_le_left _ _
  · exact List.Nodup.sublist (List.take_sublist _ _) (dedupJs_nodup _)
  · intro hcond
    unfold generatePrioritizedQueries
    simp only []
    rw [if_pos hcond]
    rcases hp : (preprocessQuery title).head? with _ | p
    · simp [dedupJs, dedupJsGo]
    · simp only []
      split_ifs with hpp
      · have hne : ¬p ∈ [jsTrimS title] := by
          simp only [List.mem_singleton]
          exact hpp.2
        simp [dedupJs, dedupJsGo, hne]
      · simp [dedupJs, dedupJsGo]
  · intro v hv
    unfold generatePrioritizedQueries at hv
    have hv1 : v ∈ dedupJs _ := List.take_subset _ _ hv
    have hv2 := dedupJsGo_subset _ [] v hv1
    split_ifs at hv2 with hcond
    · rcases hp : (preprocessQuery title).head? with _ | p <;> rw [hp] at hv2
      · simp only [List.mem_singleton] at hv2
        exact Or.inl hv2
      · simp only [] at hv2
        split_ifs at hv2 with hpp
        · rcases List.mem_cons.mp hv2 with rfl | hv3
          · exact Or.inl rfl
          · simp only [List.mem_singleton] at hv3
            subst hv3
            exact Or.inr rfl
        · simp only [List.mem_singleton] at hv2
          exact Or.inl hv2
    · simp at hv2

/-- C7 witness: a well-formed title, with and without a localized title. -/
theorem planner_shape_witness :
    (generatePrioritizedQueries qBear (some qABCD)).head? = some (jsTrimS qBear) ∧
    generatePrioritizedQueries qBear (some qABCD) =
      generatePrioritizedQueries qBear none :=
  ⟨(planner_shape qBear (some qABCD)).2.2.2.1 (by decide),
    (planner_shape qBear (some qABCD)).1⟩

/-! ## C9: Scenario A of the title extractor -/

/-- C9: the extractor reduces the Scenario A feed title to its show name
(the first frog-site pattern, season-episode marker, fires). -/
theorem extract_the_bear :
    extractTVShowTitle scenarioATitle = some "The Bear" := by decide

/-! ## C3: TV candidates beat movie candidates -/

theorem scoredGe_trans {a b c : ScoredItem} (h1 : scoredGe a b)
    (h2 : scoredGe b c) : scoredGe a c := by
  rcases ha : a.score with _ | x <;> rcases hb : b.score with _ | y <;>
    rcases hc : c.score with _ | z <;>
      simp_all [scoredGe] <;> omega

theorem scoredGe_of_not_lt {x y : ScoredItem}
    (h : scoreLtB x.score y.score = false) : scoredGe x y := by
  rcases hx : x.score with _ | a <;> rcases hy : y.score with _ | b <;>
    simp_all [scoredGe, scoreLtB] <;> omega

theorem scoredGe_of_lt {x y : ScoredItem}
    (h : scoreLtB x.score y.score = true) : scoredGe y x := by
  rcases hx : x.score with _ | a <;> rcases hy : y.score with _ | b <;>
    simp_all [scoredGe, scoreLtB] <;> omega

theorem mem_sortInsert (x z : ScoredItem) :
    ∀ l : List ScoredItem, z ∈ sortInsert x l ↔ z = x ∨ z ∈ l := by
  intro l
  induction l with
  | nil => simp [sortInsert]
  | cons y t ih =>
    unfold sortInsert
    split_ifs
    · simp only [List.mem_cons, ih]
      tauto
    · simp only [List.mem_cons]

theorem pairwise_sortInsert (x : ScoredItem) :
    ∀ l : List ScoredItem, List.Pairwise scoredGe l →
      List.Pairwise scoredGe (sortInsert x l) := by
  intro l
  induction l with
  | nil => intro _; simp [sortInsert]
  | cons y t ih =>
    intro hp
    rw [List.pairwise_cons] at hp
    unfold sortInsert
    split_ifs with hlt
    · rw [List.pairwise_cons]
      refine ⟨?_, ih hp.2⟩
      intro z hz
      rcases (mem_sortInsert x z t).mp hz with rfl | hz2
      · exact scoredGe_of_lt hlt
      · exact hp.1 z hz2
    · have hxy : scoredGe x y :=
        scoredGe_of_not_lt (Bool.eq_false_iff.mpr hlt)
      rw [List.pairwise_cons]
      refine ⟨?_, List.pairwise_cons.mpr hp⟩
      intro z hz
      rcases List.mem_cons.mp hz with rfl | hz2
      · exact hxy
      · exact scoredGe_trans hxy (hp.1 z hz2)

theorem mem_sortScored (z : ScoredItem) :
    ∀ l : List ScoredItem, z ∈ sortScored l ↔ z ∈ l := by
  intro l
  induction l with
  | nil => simp [sortScored]
  | cons x t ih =>
    unfold sortScored
    rw [mem_sortInsert, ih, List.mem_cons]

theorem pairwise_sortScored :
    ∀ l : List ScoredItem, List.Pairwise scoredGe (sortScored l) := by
  intro l
  induction l with
  | nil => simp [sortScored]
  | cons x t ih => exact pairwise_sortInsert x (sortScored t) ih

theorem find?_first {p : ScoredItem → Bool} :
    ∀ {l : List ScoredItem} {u : ScoredItem}, List.Pairwise scoredGe l →
      l.find? p = some u → ∀ w ∈ l, p w = true → u = w ∨ scoredGe u w := by
  intro l
  induction l with
  | nil =>
    intro u _ hf
    simp [List.find?] at hf
  | cons a t ih =>
    intro u hp hf w hw hpw
    rw [List.pairwise_cons] at hp
    by_cases ha : p a = true
    · rw [List.find?_cons_of_pos _ ha] at hf
      cases Option.some.inj hf
      rcases List.mem_cons.mp hw with rfl | hw2
      · exact Or.inl rfl
      · exact Or.inr (hp.1 w hw2)
    · rw [List.find?_cons_of_neg _ ha] at hf
      rcases List.mem_cons.mp hw with rfl | hw2
      · rw [hpw] at ha
        exact absurd rfl ha
      · exact ih hp.2 hf w hw2 hpw

theorem find?_exists {p : ScoredItem → Bool} :
    ∀ {l : List ScoredItem}, (∃ x ∈ l, p x = true) →
      ∃ u, l.find? p = some u ∧ p u = true ∧ u ∈ l := by
  intro l
  induction l with
  | nil =>
    rintro ⟨x, hx, _⟩
    simp at hx
  | cons a t ih =>
    rintro ⟨x, hx, hpx⟩
    by_cases ha : p a = true
    · exact ⟨a, List.find?_cons_of_pos _ ha, ha, List.mem_cons_self a t⟩
    · rcases List.mem_cons.mp hx with rfl | hx2
      · exact absurd hpx ha
      · obtain ⟨u, hf, hpu, hu⟩ := ih ⟨x, hx2, hpx⟩
        refine ⟨u, ?_, hpu, List.mem_cons_of_mem a hu⟩
        rw [List.find?_cons_of_neg _ ha]
        exact hf

theorem prefixOfC_append (b : List Char) :
    ∀ (sub a : List Char), prefixOfC sub a = true → prefixOfC sub (a ++ b) = true := by
  intro sub
  induction sub with
  | nil => intro a _; rfl
  | cons c cs ih =>
    intro a h
    cases a with
    | nil => simp [prefixOfC] at h
    | cons d ds =>
      simp only [prefixOfC, List.cons_append, Bool.and_eq_true] at h ⊢
      exact ⟨h.1, ih ds h.2⟩

theorem containsSub_nil (l : List Char) : containsSub [] l = true := by
  cases l <;> simp [containsSub, prefixOfC]

theorem containsSub_append (b : List Char) (sub : List Char) :
    ∀ a : List Char, containsSub sub a = true → containsSub sub (a ++ b) = true := by
  intro a
  induction a with
  | nil =>
    intro h
    unfold containsSub at h
    have : sub = [] := by
      cases sub
      · rfl
      · simp [List.isEmpty] at h
    subst this
    exact containsSub_nil b
  | cons c t ih =>
    intro h
    rw [containsSub, Bool.or_eq_true] at h
    rw [List.cons_append, containsSub, Bool.or_eq_true]
    rcases h with h | h
    · exact Or.inl (prefixOfC_append b sub (c :: t) h)
    · exact Or.inr (ih h)

theorem jsIncludes_tvUrl (id : Int) : jsIncludes (tvUrlOf id) "/tv/" = true := by
  unfold tvUrlOf jsIncludes
  rw [String.data_append]
  apply containsSub_append
  decide

/-- Bridge from the scored order to the JS threshold comparison. -/
theorem jsGtB_of_scoredGe {u t : ScoredItem} {c w : Int} (hge : scoredGe u t)
    (ht : t.score = some w) (hc : c < w) : jsGtB u.score (some c) = true := by
  rcases hu : u.score with _ | v <;> simp_all [scoredGe, jsGtB] <;> omega

/-- C3: whenever the scored combined-search list holds a TV candidate above
the low threshold, the selection starting from an empty best ends on a TV
link of such a candidate; and a best that is already a TV link is never
replaced by the movie half of the combined selection nor by the movie-only
fallback, whatever the movie scores. -/
theorem combined_prefers_tv :
    ∀ (query : String) (scored : List ScoredItem) (t : ScoredItem),
      t ∈ scored → t.result.media_type = MediaType.tv →
      jsGtB t.score (some 25) = true →
      (∃ u : ScoredItem, u ∈ scored ∧ u.result.media_type = MediaType.tv ∧
        jsGtB u.score (some 25) = true ∧
        selectCombined query scored none =
          some ⟨tvUrlOf u.result.id, u.score, query⟩ ∧
        jsIncludes (tvUrlOf u.result.id) "/tv/" = true) ∧
      (∀ (q2 : String) (scored2 : List ScoredItem) (b : BestResult),
        jsIncludes b.url "/tv/" = true → movieSelect q2 scored2 (some b) = some b) ∧
      (∀ (q2 : String) (mr : List TMDBSearchResult) (ty : Option Int) (cy : Int)
        (b : BestResult), jsIncludes b.url "/tv/" = true →
        movieOnlyStep q2 mr ty cy (some b) = (some b, none)) := by
  intro query scored t ht htv hts
  have hmovieSel : ∀ (q2 : String) (scored2 : List ScoredItem) (b : BestResult),
      jsIncludes b.url "/tv/" = true → movieSelect q2 scored2 (some b) = some b := by
    intro q2 scored2 b hb
    unfold movieSelect
    rcases hf : scored2.find?
        (fun it => decide (it.result.media_type = MediaType.movie)) with _ | m
    · rw [hf]
    · rw [hf]
      simp only []
      split_ifs with h1 h2
      · rw [hb] at h2
        simp at h2
      · rfl
      · rfl
  refine ⟨?_, hmovieSel, ?_⟩
  · -- the positive selection
    obtain ⟨w, hw, hw25⟩ : ∃ w : Int, t.score = some w ∧ 25 < w := by
      rcases hsc : t.score with _ | w
      · rw [hsc] at hts
        simp [jsGtB] at hts
      · rw [hsc] at hts
        simp [jsGtB] at hts
        exact ⟨w, rfl, hts⟩
    have htv' : (fun it => decide (it.result.media_type = MediaType.tv)) t = true := by
      simp [htv]
    have htmem : t ∈ sortScored scored := (mem_sortScored t scored).mpr ht
    obtain ⟨u, hfind, hpu, humem⟩ :=
      @find?_exists (fun it => decide (it.result.media_type = MediaType.tv))
        (sortScored scored) ⟨t, htmem, htv'⟩
    have hutv : u.result.media_type = MediaType.tv := by simpa using hpu
    have huge : u = t ∨ scoredGe u t :=
      find?_first (pairwise_sortScored scored) hfind t htmem htv'
    have hu25 : jsGtB u.score (some 25) = true := by
      rcases huge with rfl | hge
      · exact hts
      · exact jsGtB_of_scoredGe hge hw hw25
    refine ⟨u, (mem_sortScored u scored).mp humem, hutv, hu25, ?_,
      jsIncludes_tvUrl u.result.id⟩
    unfold selectCombined
    simp only []
    have htvSel : tvSelect query (sortScored scored) none =
        some ⟨tvUrlOf u.result.id, u.score, query⟩ := by
      unfold tvSelect
      rw [hfind]
      simp only [hu25, if_pos]
      rfl
    rw [htvSel]
    exact hmovieSel query (sortScored scored)
      ⟨tvUrlOf u.result.id, u.score, query⟩ (jsIncludes_tvUrl u.result.id)
  · -- movie-only preservation
    intro q2 mr ty cy b hb
    unfold movieOnlyStep
    by_cases hlen : mr.length > 0
    · rw [if_pos hlen]
      rcases hh : (sortScored (mr.map
          (fun r => ⟨r, calculateRelevanceScore r q2 cy⟩))).head? with _ | top
      · rfl
      · simp only []
        rw [hb]
        simp
    · rw [if_neg hlen]

/-- C3 witness: a Scenario-C style list with one scored TV candidate and one
scored movie candidate. -/
theorem combined_prefers_tv_witness :
    ∃ u : ScoredItem, u ∈ [scTvItem, scMovieItem] ∧
      u.result.media_type = MediaType.tv ∧ jsGtB u.score (some 25) = true ∧
      selectCombined qBearW [scTvItem, scMovieItem] none =
        some ⟨tvUrlOf u.result.id, u.score, qBearW⟩ ∧
      jsIncludes (tvUrlOf u.result.id) "/tv/" = true :=
  (combined_prefers_tv qBearW [scTvItem, scMovieItem] scTvItem
    (by decide) (by decide) (by decide)).1

/-! ## C1: null guard of `smartSearch` -/

/-- Body of `smartSearch` once the configuration guard has passed. -/
theorem smartSearch_eq (config : TMDBConfig) (oracle : SearchOracle)
    (cy now : Int) (cache : List (String × CacheEntry)) (title : String)
    (ch : Option String) (hcfg : config.enabled = true ∧ config.apiKey ≠ "") :
    smartSearch config oracle cy now cache title ch =
      (match (getCachedResult cache now (cacheKeyOf title ch)).1 with
       | some v => ⟨v, (getCachedResult cache now (cacheKeyOf title ch)).2, 0⟩
       | none =>
         let res := performOptimizedSearch oracle cy
           (generatePrioritizedQueries title ch)
           (extractYearFromQuery cy (title ++ " " ++ ch.getD "")) [] none
         ⟨res.1,
          setCachedResult (getCachedResult cache now (cacheKeyOf title ch)).2
            now (cacheKeyOf title ch) res.1,
          res.2.1⟩) := by
  unfold smartSearch
  rw [if_pos hcfg]

/-- An empty or whitespace-only title generates no query variants. -/
theorem generate_empty (title : String) (ch : Option String)
    (h : jsTrimS title = "") : generatePrioritizedQueries title ch = [] := by
  unfold generatePrioritizedQueries
  simp only []
  rw [if_neg (by intro hand; exact hand.2 h)]
  rfl

/-- C1: with an unconfigured client — or an empty primary title whose cache
slot is not poisoned with a non-null link — `smartSearch` resolves to null
and performs zero catalog calls. -/
theorem smartSearch_null_guard :
    ∀ (config : TMDBConfig) (oracle : SearchOracle) (cy now : Int)
      (cache : List (String × CacheEntry)) (title : String) (ch : Option String),
      (¬(config.enabled = true ∧ config.apiKey ≠ "") ∨
        (jsTrimS title = "" ∧
          ∀ l : String,
            (getCachedResult cache now (cacheKeyOf title ch)).1 ≠ some (some l))) →
      (smartSearch config oracle cy now cache title ch).result = none ∧
      (smartSearch config oracle cy now cache title ch).calls = 0 := by
  intro config oracle cy now cache title ch h
  by_cases hcfg : config.enabled = true ∧ config.apiKey ≠ ""
  · rcases h with h | ⟨hemp, hcache⟩
    · exact absurd hcfg h
    · rw [smartSearch_eq config oracle cy now cache title ch hcfg]
      rcases hgc : (getCachedResult cache now (cacheKeyOf title ch)).1 with _ | v
      · simp [generate_empty title ch hemp, performOptimizedSearch]
      · rcases v with _ | l
        · exact ⟨rfl, rfl⟩
        · exact absurd hgc (hcache l)
  · unfold smartSearch
    rw [if_neg hcfg]
    exact ⟨rfl, rfl⟩

/-- C1 witness: disabled configuration. -/
theorem smartSearch_null_guard_witness :
    (smartSearch offConfig emptyOracle 2025 0 [] qBear none).result = none ∧
    (smartSearch offConfig emptyOracle 2025 0 [] qBear none).calls = 0 :=
  smartSearch_null_guard offConfig emptyOracle 2025 0 [] qBear none
    (Or.inl (by decide))

/-! ## C2: cache idempotence -/

theorem find?_none_of_key_notin :
    ∀ (c : List (String × CacheEntry)) (key : String),
      key ∉ c.map Prod.fst →
      c.find? (fun p => decide (p.1 = key)) = none := by
  intro c key
  induction c with
  | nil => intro _; rfl
  | cons a t ih =>
    intro h
    simp only [List.map_cons, List.mem_cons] at h
    push_neg at h
    rw [List.find?_cons_of_neg]
    · exact ih h.2
    · simp only [decide_eq_true_eq]
      intro he
      exact h.1 he.symm

theorem find?_delete_self :
    ∀ (c : List (String × CacheEntry)) (key : String),
      (c.map Prod.fst).Nodup →
      (jsMapDelete c key).find? (fun p => decide (p.1 = key)) = none := by
  intro c key
  induction c with
  | nil => intro _; rfl
  | cons a t ih =>
    rcases a with ⟨k1, e1⟩
    intro hnd
    simp only [List.map_cons, List.nodup_cons] at hnd
    unfold jsMapDelete
    split_ifs with hk
    · subst hk
      exact find?_none_of_key_notin t k1 hnd.1
    · rw [List.find?_cons_of_neg]
      · exact ih hnd.2
      · simp only [decide_eq_true_eq]
        exact hk


theorem jsMapSet_absent :
    ∀ (c : List (String × CacheEntry)) (key : String) (e : CacheEntry),
      c.find? (fun p => decide (p.1 = key)) = none →
      jsMapSet c key e = c ++ [(key, e)] := by
  intro c key e
  induction c with
  | nil => intro _; rfl
  | cons a t ih =>
    rcases a with ⟨k1, e1⟩
    intro h
    by_cases hk : k1 = key
    · rw [List.find?_cons_of_pos _ (by simp [hk])] at h
      exact Option.noConfusion h
    · rw [List.find?_cons_of_neg _ (by simp [hk])] at h
      unfold jsMapSet
      rw [if_neg hk, ih h, List.cons_append]

theorem find?_append_none {p : String × CacheEntry → Bool} :
    ∀ (c l2 : List (String × CacheEntry)), c.find? p = none →
      (c ++ l2).find? p = l2.find? p := by
  intro c l2
  induction c with
  | nil => intro _; rfl
  | cons a t ih =>
    intro h
    by_cases hpa : p a = true
    · rw [List.find?_cons_of_pos _ hpa] at h
      exact Option.noConfusion h
    · rw [List.find?_cons_of_neg _ hpa] at h
      rw [List.cons_append, List.find?_cons_of_neg _ hpa]
      exact ih h

theorem find?_set_fresh (c : List (String × CacheEntry)) (now : Int)
    (key : String) (r : Option String)
    (h : c.find? (fun p => decide (p.1 = key)) = none) :
    (setCachedResult c now key r).find? (fun p => decide (p.1 = key)) =
      some (key, ⟨r, now⟩) := by
  unfold setCachedResult
  simp only []
  rw [jsMapSet_absent c key ⟨r, now⟩ h]
  have hsingle : ([(key, (⟨r, now⟩ : CacheEntry))]).find?
      (fun p => decide (p.1 = key)) = some (key, ⟨r, now⟩) := by
    simp [List.find?]
  split_ifs with hlen
  · cases c with
    | nil => simp at hlen
    | cons a t =>
      rw [List.cons_append]
      simp only [List.tail_cons]
      have ht : t.find? (fun p => decide (p.1 = key)) = none :=
        List.find?_eq_none.mpr
          (fun x hx => List.find?_eq_none.mp h x (List.mem_cons_of_mem a hx))
      rw [find?_append_none t _ ht]
      exact hsingle
  · rw [find?_append_none c _ h]
    exact hsingle

/-- Reduction of `getCachedResult` on a fresh stored entry. -/
theorem getCachedResult_fresh (c : List (String × CacheEntry)) (t2 : Int)
    (key : String) (entry : CacheEntry)
    (hfind : c.find? (fun p => decide (p.1 = key)) = some (key, entry))
    (httl : t2 - entry.timestamp ≤ cacheExpireTime) :
    getCachedResult c t2 key = (some entry.result, c) := by
  unfold getCachedResult
  rw [hfind]
  simp only []
  rw [if_neg (not_lt.mpr httl)]

/-- C2: calling `smartSearch` twice on the same pair, the second call within
the cache TTL of the entry the first call used or wrote (and on a genuine
map state, so the entry cannot be evicted), returns the same result with
zero catalog calls. -/
theorem smartSearch_cache_idempotent :
    ∀ (config : TMDBConfig) (oracle : SearchOracle) (cy t1 t2 : Int)
      (cache : List (String × CacheEntry)) (title : String) (ch : Option String),
      (cache.map Prod.fst).Nodup →
      (∀ e : CacheEntry,
        lookupJs (smartSearch config oracle cy t1 cache title ch).cache
          (cacheKeyOf title ch) = some e →
        t2 - e.timestamp ≤ cacheExpireTime) →
      (smartSearch config oracle cy t2
          (smartSearch config oracle cy t1 cache title ch).cache title
          ch).result =
        (smartSearch config oracle cy t1 cache title ch).result ∧
      (smartSearch config oracle cy t2
          (smartSearch config oracle cy t1 cache title ch).cache title
          ch).calls = 0 := by
  intro config oracle cy t1 t2 cache title ch hnd httl
  by_cases hcfg : config.enabled = true ∧ config.apiKey ≠ ""
  case neg =>
    constructor <;> simp [smartSearch, hcfg]
  case pos =>
    rcases hgc : cache.find? (fun p => decide (p.1 = cacheKeyOf title ch))
        with _ | pe
    · -- key absent: the first call misses and writes a fresh entry
      have hget1 : getCachedResult cache t1 (cacheKeyOf title ch) =
          (none, cache) := by
        unfold getCachedResult
        rw [hgc]
      have e1 : smartSearch config oracle cy t1 cache title ch =
          ⟨(performOptimizedSearch oracle cy
              (generatePrioritizedQueries title ch)
              (extractYearFromQuery cy (title ++ " " ++ ch.getD "")) [] none).1,
            setCachedResult cache t1 (cacheKeyOf title ch)
              (performOptimizedSearch oracle cy
                (generatePrioritizedQueries title ch)
                (extractYearFromQuery cy (title ++ " " ++ ch.getD "")) []
                none).1,
            (performOptimizedSearch oracle cy
              (generatePrioritizedQueries title ch)
              (extractYearFromQuery cy (title ++ " " ++ ch.getD "")) []
              none).2.1⟩ := by
        rw [smartSearch_eq config oracle cy t1 cache title ch hcfg, hget1]
      set r1 := (performOptimizedSearch oracle cy
        (generatePrioritizedQueries title ch)
        (extractYearFromQuery cy (title ++ " " ++ ch.getD "")) [] none).1 with hr1
      have hfind2 := find?_set_fresh cache t1 (cacheKeyOf title ch) r1 hgc
      have hl : lookupJs (smartSearch config oracle cy t1 cache title ch).cache
          (cacheKeyOf title ch) = some ⟨r1, t1⟩ := by
        rw [e1]
        unfold lookupJs
        simp only []
        rw [hfind2]
        rfl
      have httl1 := httl ⟨r1, t1⟩ hl
      have hget2 := getCachedResult_fresh
        (setCachedResult cache t1 (cacheKeyOf title ch) r1) t2
        (cacheKeyOf title ch) ⟨r1, t1⟩ hfind2 httl1
      rw [e1, smartSearch_eq config oracle cy t2
        (setCachedResult cache t1 (cacheKeyOf title ch) r1) title ch hcfg,
        hget2]
      exact ⟨rfl, rfl⟩
    · -- key present
      have hkey : pe.1 = cacheKeyOf title ch := by
        have := List.find?_some hgc
        simpa using this
      by_cases hexp : t1 - pe.2.timestamp > cacheExpireTime
      · -- expired at the first call: it is deleted, then a fresh write
        have hget1 : getCachedResult cache t1 (cacheKeyOf title ch) =
            (none, jsMapDelete cache (cacheKeyOf title ch)) := by
          unfold getCachedResult
          rw [hgc]
          simp only []
          rw [if_pos hexp]
        have hdel := find?_delete_self cache (cacheKeyOf title ch) hnd
        have e1 : smartSearch config oracle cy t1 cache title ch =
            ⟨(performOptimizedSearch oracle cy
                (generatePrioritizedQueries title ch)
                (extractYearFromQuery cy (title ++ " " ++ ch.getD "")) []
                none).1,
              setCachedResult (jsMapDelete cache (cacheKeyOf title ch)) t1
                (cacheKeyOf title ch)
                (performOptimizedSearch oracle cy
                  (generatePrioritizedQueries title ch)
                  (extractYearFromQuery cy (title ++ " " ++ ch.getD "")) []
                  none).1,
              (performOptimizedSearch oracle cy
                (generatePrioritizedQueries title ch)
                (extractYearFromQuery cy (title ++ " " ++ ch.getD "")) []
                none).2.1⟩ := by
          rw [smartSearch_eq config oracle cy t1 cache title ch hcfg, hget1]
        set r1 := (performOptimizedSearch oracle cy
          (generatePrioritizedQueries title ch)
          (extractYearFromQuery cy (title ++ " " ++ ch.getD "")) [] none).1
          with hr1
        have hfind2 := find?_set_fresh (jsMapDelete cache (cacheKeyOf title ch))
          t1 (cacheKeyOf title ch) r1 hdel
        have hl : lookupJs
            (smartSearch config oracle cy t1 cache title ch).cache
            (cacheKeyOf title ch) = some ⟨r1, t1⟩ := by
          rw [e1]
          unfold lookupJs
          simp only []
          rw [hfind2]
          rfl
        have httl1 := httl ⟨r1, t1⟩ hl
        have hget2 := getCachedResult_fresh
          (setCachedResult (jsMapDelete cache (cacheKeyOf title ch)) t1
            (cacheKeyOf title ch) r1) t2 (cacheKeyOf title ch) ⟨r1, t1⟩
          hfind2 httl1
        rw [e1, smartSearch_eq config oracle cy t2
          (setCachedResult (jsMapDelete cache (cacheKeyOf title ch)) t1
            (cacheKeyOf title ch) r1) title ch hcfg, hget2]
        exact ⟨rfl, rfl⟩
      · -- fresh at the first call: a pure cache hit both times
        have hget1 : getCachedResult cache t1 (cacheKeyOf title ch) =
            (some pe.2.result, cache) := by
          unfold getCachedResult
          rw [hgc]
          simp only []
          rw [if_neg hexp]
        have e1 : smartSearch config oracle cy t1 cache title ch =
            ⟨pe.2.result, cache, 0⟩ := by
          rw [smartSearch_eq config oracle cy t1 cache title ch hcfg, hget1]
        have hfind1 : cache.find? (fun p => decide (p.1 = cacheKeyOf title ch)) =
            some (cacheKeyOf title ch, pe.2) := by
          rw [hgc]
          rcases pe with ⟨k, e⟩
          simp only at hkey
          rw [hkey]
        have hl : lookupJs (smartSearch config oracle cy t1 cache title ch).cache
            (cacheKeyOf title ch) = some pe.2 := by
          rw [e1]
          unfold lookupJs
          simp only []
          rw [hgc]
          rfl
        have httl1 := httl pe.2 hl
        have hget2 := getCachedResult_fresh cache t2 (cacheKeyOf title ch) pe.2
          hfind1 httl1
        rw [e1, smartSearch_eq config oracle cy t2 cache title ch hcfg, hget2]
        exact ⟨rfl, rfl⟩

/-- C2 witness: a miss followed by a hit on the freshly written null entry,
at the same timestamp, with an all-empty catalog. -/
theorem smartSearch_cache_idempotent_witness :
    ((cache2w.map Prod.fst).Nodup) ∧
    (smartSearch onConfig emptyOracle 2025 0
        (smartSearch onConfig emptyOracle 2025 0 cache2w qBear none).cache
        qBear none).result =
      (smartSearch onConfig emptyOracle 2025 0 cache2w qBear none).result ∧
    (smartSearch onConfig emptyOracle 2025 0
        (smartSearch onConfig emptyOracle 2025 0 cache2w qBear none).cache
        qBear none).calls = 0 :=
  ⟨by decide,
    smartSearch_cache_idempotent onConfig emptyOracle 2025 0 0 cache2w qBear
      none (by decide)
      (fun e he => by
        have hval : lookupJs
            (smartSearch onConfig emptyOracle 2025 0 cache2w qBear none).cache
            (cacheKeyOf qBear none) = some ⟨none, 0⟩ := by decide
        rw [hval] at he
        cases Option.some.inj he
        decide)⟩

/-! ## C8: the catalog client degrades, never throws -/

theorem requestLoop_allfail
    (net : Nat → Option (Option (List TMDBSearchResult))) :
    ∀ (k a : Nat), (∀ i, i ≤ a + k → net i = none) →
      requestLoop net a k =
        (.error requestFailedMsg, k + 1,
          (List.range k).map (fun i => min (1000 * 2 ^ (a + i)) 5000)) := by
  intro k
  induction k with
  | zero =>
    intro a h
    unfold requestLoop
    rw [h a (by omega)]
    rfl
  | succ k ih =>
    intro a h
    unfold requestLoop
    rw [h a (by omega)]
    simp only []
    rw [ih (a + 1) (fun i hi => h i (by omega))]
    have hcomp : (fun i => min (1000 * 2 ^ (a + i)) 5000) ∘ Nat.succ =
        (fun i => min (1000 * 2 ^ (a + 1 + i)) 5000) := by
      funext i
      simp only [Function.comp_apply]
      have he : a + Nat.succ i = a + 1 + i := by omega
      rw [he]
    have hlist : (List.range (k + 1)).map
        (fun i => min (1000 * 2 ^ (a + i)) 5000) =
        min (1000 * 2 ^ a) 5000 ::
          (List.range k).map (fun i => min (1000 * 2 ^ (a + 1 + i)) 5000) := by
      rw [List.range_succ_eq_map, List.map_cons, List.map_map, hcomp]
      simp
    rw [hlist]

/-- C8: with a configured client and a network failing every attempt,
`makeRequest` makes exactly `retries + 1` attempts with exponentially
doubling, capped backoff delays and fails with the request-failure error;
the three search wrappers swallow that and return empty lists; and an
unconfigured client fails immediately with the not-configured error before
any network attempt. -/
theorem catalog_client_degrades :
    ∀ (config config2 : TMDBConfig) (retries : Nat)
      (net : Nat → Option (Option (List TMDBSearchResult))),
      config.enabled = true ∧ config.apiKey ≠ "" →
      (∀ i, i ≤ retries → net i = none) →
      ¬(config2.enabled = true ∧ config2.apiKey ≠ "") →
      makeRequest config retries net =
        (.error requestFailedMsg, retries + 1,
          (List.range retries).map (fun i => min (1000 * 2 ^ i) 5000)) ∧
      searchMulti config net = [] ∧
      searchTV config net = [] ∧
      searchMovie config net = [] ∧
      makeRequest config2 retries net = (.error notConfiguredMsg, 0, []) := by
  intro config config2 retries net hcfg hfail hcfg2
  have hnet0 : net 0 = none := hfail 0 (by omega)
  have hmr0 : makeRequest config 0 net = (.error requestFailedMsg, 1, []) := by
    unfold makeRequest
    rw [if_pos hcfg]
    unfold requestLoop
    rw [hnet0]
  refine ⟨?_, ?_, ?_, ?_, ?_⟩
  · unfold makeRequest
    rw [if_pos hcfg]
    have := requestLoop_allfail net retries 0 (fun i hi => hfail i (by omega))
    simpa using this
  · unfold searchMulti
    rw [hmr0]
  · unfold searchTV
    rw [hmr0]
  · unfold searchMovie
    rw [hmr0]
  · unfold makeRequest
    rw [if_neg hcfg2]

/-- C8 witness: two retries against an always-failing network. -/
theorem catalog_client_degrades_witness :
    makeRequest onConfig 2 failNet =
      (.error requestFailedMsg, 3,
        (List.range 2).map (fun i => min (1000 * 2 ^ i) 5000)) ∧
    searchMulti onConfig failNet = [] ∧
    searchTV onConfig failNet = [] ∧
    searchMovie onConfig failNet = [] ∧
    makeRequest offConfig 2 failNet = (.error notConfiguredMsg, 0, []) :=
  catalog_client_degrades onConfig offConfig 2 failNet (by decide)
    (fun _ _ => rfl) (by decide)

/-! ## C10: the one-query cap of the search loop -/

/-- C10: with the fresh empty searched-set that `smartSearch` passes in, the
loop never looks beyond the first query variant: the outcome over `q :: rest`
is the outcome over `[q]` alone, and exactly the one query is recorded. -/
theorem search_loop_single_query :
    ∀ (oracle : SearchOracle) (cy : Int) (ty : Option Int) (q : String)
      (rest : List String),
      performOptimizedSearch oracle cy (q :: rest) ty [] none =
        performOptimizedSearch oracle cy [q] ty [] none ∧
      (performOptimizedSearch oracle cy (q :: rest) ty [] none).2.2 = [q] := by
  intro oracle cy ty q rest
  constructor
  · cases h : (processQuery oracle cy ty none q).early <;>
      simp [performOptimizedSearch, h]
  · cases h : (processQuery oracle cy ty none q).early <;>
      simp [performOptimizedSearch, h]

end RssTv
